import Mathlib

/-!
Verification of the vscsim RMS VSC-HVDC simulation engine.

This file gives a shallow embedding, over exact rational arithmetic, of the
numerical core of the `vscsim` Python package: the saturation and control
formulas (`vscsim/vsc/`), the DAE right-hand side and Jacobians
(`vscsim/model/`), the dense linear solver and Newton-Raphson engine
(`vscsim/solver/nr.py`), the explicit integrators
(`vscsim/solver/integrator.py`, `integrator_rk.py`), the adaptive timestepper
(`vscsim/solver/timestepper.py`), the step orchestrator and adaptive driver
(`vscsim/solver/simulation.py`) and the fixed-step driver
(`vscsim/api/simulation.py`).

Modelling conventions:
* Python floats are modelled as rationals (idealised real arithmetic); a
  stated exact equality therefore implies the numerical tolerances quoted in
  the specification.
* Python dictionaries of floats (`Mapping[str, float]`) are modelled as
  insertion-ordered association lists `SMap := List (String × ℚ)`.
* A Python function that can raise is modelled as `Except String _`; the
  error string records the exception raised.
* `math.sqrt` and the float power `x ** e` have no exact rational
  counterpart; they are passed in as explicit function parameters (`sqrtFn`,
  `rpow`).  Theorems that depend on their value carry the defining equation
  of the square root as a hypothesis; concrete runs below never evaluate
  them on the code path taken.
* Python `while` loops are embedded with an explicit fuel parameter; all
  statements are about runs that complete within the given fuel.
-/

deriving instance DecidableEq for Except

set_option maxRecDepth 2000

namespace VscSim

/-- Ordered string-keyed map of rationals, modelling `Mapping[str, float]`. -/
abbrev SMap := List (String × ℚ)

/-- First-match lookup, the semantics of Python dict indexing (dict keys are
unique, so first match is the match). -/
def getv : SMap → String → Option ℚ
  | [], _ => none
  | (k, v) :: rest, key => if k = key then some v else getv rest key

/-- Python `m[key]`: raises `KeyError` when the key is absent. -/
def getKey (m : SMap) (k : String) : Except String ℚ :=
  match getv m k with
  | some v => Except.ok v
  | none => Except.error ("KeyError: " ++ k)

/-- Python `m.get(key, d)`. -/
def getD (m : SMap) (k : String) (d : ℚ) : ℚ :=
  (getv m k).getD d

/-- The key list of a map, in insertion order (Python `m.keys()`). -/
def keys (m : SMap) : List String :=
  m.map Prod.fst

/-- Python float division: raises `ZeroDivisionError` on a zero divisor. -/
def pydiv (a b : ℚ) : Except String ℚ :=
  if b = 0 then Except.error "ZeroDivisionError" else Except.ok (a / b)

/-- Lookup of an optional scenario entry, `KeyError` when absent
(models `scenario[name]` on the heterogeneous scenario dict). -/
def sgetKey (o : Option ℚ) (name : String) : Except String ℚ :=
  match o with
  | some v => Except.ok v
  | none => Except.error ("KeyError: " ++ name)

/-- Scenario mapping (`scenario` dict): control mode plus the optional
numeric entries the engine reads.  A `none` field models an absent key. -/
structure Scenario where
  control_mode : Option String := none
  P_ref : Option ℚ := none
  Q_ref : Option ℚ := none
  v_pcc_d : Option ℚ := none
  v_pcc_q : Option ℚ := none
  id_ref : Option ℚ := none
  iq_ref : Option ℚ := none

/-! ### `vscsim/vsc/saturation.py` -/

/-- `apply_voltage_saturation(v_conv_d_ref, v_conv_q_ref, v_max)`.
`sqrtFn` stands for `math.sqrt` (only evaluated on the saturating branch,
where its argument is a strictly positive rational). -/
def apply_voltage_saturation (sqrtFn : ℚ → ℚ)
    (v_conv_d_ref v_conv_q_ref v_max : ℚ) : ℚ × ℚ :=
  let v_sq := v_conv_d_ref * v_conv_d_ref + v_conv_q_ref * v_conv_q_ref
  if v_sq ≤ v_max * v_max ∨ v_sq = 0 then
    (v_conv_d_ref, v_conv_q_ref)
  else
    let scale := v_max / sqrtFn v_sq
    (v_conv_d_ref * scale, v_conv_q_ref * scale)

/-! ### `vscsim/vsc/control_external.py` -/

/-- `_compute_currents_from_pq(P_ref, Q_ref, v_pcc_d, v_pcc_q)`. -/
def compute_currents_from_pq (P_ref Q_ref v_pcc_d v_pcc_q : ℚ) : ℚ × ℚ :=
  let factor : ℚ := 1.5
  let sP := P_ref / factor
  let sQ := Q_ref / factor
  let v_d := v_pcc_d
  let v_q := v_pcc_q
  let det := v_d * (-v_d) - v_q * v_q
  if det = 0 then
    (0, 0)
  else
    let inv_det := 1 / det
    (inv_det * (-v_d * sP - v_q * sQ), inv_det * (-v_q * sP + v_d * sQ))

/-- `compute_current_references(t, x, y, scenario, params)`.  The `t`, `x`,
`y` and `params` arguments are accepted but unused, exactly as in the
source. -/
def compute_current_references (t : ℚ) (x y : SMap)
    (scenario : Scenario) (params : SMap) : Except String SMap :=
  let mode := scenario.control_mode.getD "PQ"
  if mode = "PQ" then do
    let pr ← sgetKey scenario.P_ref "P_ref"
    let qr ← sgetKey scenario.Q_ref "Q_ref"
    let vd ← sgetKey scenario.v_pcc_d "v_pcc_d"
    let vq ← sgetKey scenario.v_pcc_q "v_pcc_q"
    let refs := compute_currents_from_pq pr qr vd vq
    Except.ok [("id_ref", refs.1), ("iq_ref", refs.2)]
  else if mode = "VdcQ" then do
    let idr ← sgetKey scenario.id_ref "id_ref"
    let iqr ← sgetKey scenario.iq_ref "iq_ref"
    Except.ok [("id_ref", idr), ("iq_ref", iqr)]
  else
    Except.ok [("id_ref", 0), ("iq_ref", 0)]

/-! ### `vscsim/vsc/control_inner.py` -/

/-- `compute_converter_voltage_references(id_ref, iq_ref, x, params)`:
proportional law `v* = Kp·(ref − measured)`.  Returns the voltage
reference pair `(v_conv_d_ref, v_conv_q_ref)`; the (unmodified)
controller state of the source is irrelevant to the numerics and omitted. -/
def compute_converter_voltage_references (idr iqr : ℚ) (x params : SMap) :
    Except String (ℚ × ℚ) := do
  let id0 ← getKey x "id"
  let iq0 ← getKey x "iq"
  let kp_id := getD params "Kp_id" 0
  let kp_iq := getD params "Kp_iq" 0
  let e_id := idr - id0
  let e_iq := iqr - iq0
  Except.ok (kp_id * e_id, kp_iq * e_iq)

/-! ### Claims C7, C8, C10 -/

/-- Pass-through branch of the saturation: inside or on the limit circle the
input is returned unchanged. -/
theorem saturation_pass (s : ℚ → ℚ) (d q vmax : ℚ)
    (h : d * d + q * q ≤ vmax * vmax) :
    apply_voltage_saturation s d q vmax = (d, q) := by
  simp only [apply_voltage_saturation]
  rw [if_pos (Or.inl h)]

/-- C7: `apply_voltage_saturation` returns its input pair unchanged whenever
`v_d² + v_q² ≤ V_max²` (covering the zero vector and vectors exactly on the
limit circle), and otherwise scales both components by `V_max / ‖v*‖`, so
that (given the defining property of the square root at the evaluated
point) the output lies exactly on the limit circle,
`out_d² + out_q² = V_max²` — exact in this idealised-arithmetic model, hence
within the quoted `1e-9`; applying saturation again to the scaled output
returns it unchanged (idempotence). -/
theorem C7_saturation_pass_scale_idempotent (s : ℚ → ℚ) (d q vmax : ℚ) :
    (d * d + q * q ≤ vmax * vmax → apply_voltage_saturation s d q vmax = (d, q)) ∧
    (vmax * vmax < d * d + q * q →
      s (d * d + q * q) * s (d * d + q * q) = d * d + q * q →
      ((apply_voltage_saturation s d q vmax).1 * (apply_voltage_saturation s d q vmax).1 +
        (apply_voltage_saturation s d q vmax).2 * (apply_voltage_saturation s d q vmax).2
          = vmax * vmax) ∧
      apply_voltage_saturation s
        (apply_voltage_saturation s d q vmax).1
        (apply_voltage_saturation s d q vmax).2 vmax
        = apply_voltage_saturation s d q vmax) := by
  constructor
  · exact saturation_pass s d q vmax
  · intro hgt hs
    have hvpos : 0 < d * d + q * q := lt_of_le_of_lt (mul_self_nonneg vmax) hgt
    have hsne : s (d * d + q * q) ≠ 0 := by
      intro h0
      rw [h0, mul_zero] at hs
      exact absurd hs.symm (ne_of_gt hvpos)
    have hcond : ¬(d * d + q * q ≤ vmax * vmax ∨ d * d + q * q = 0) := by
      push_neg
      exact ⟨hgt, ne_of_gt hvpos⟩
    have hout : apply_voltage_saturation s d q vmax =
        (d * (vmax / s (d * d + q * q)), q * (vmax / s (d * d + q * q))) := by
      simp only [apply_voltage_saturation]
      rw [if_neg hcond]
    have hcircle :
        (apply_voltage_saturation s d q vmax).1 * (apply_voltage_saturation s d q vmax).1 +
          (apply_voltage_saturation s d q vmax).2 * (apply_voltage_saturation s d q vmax).2
            = vmax * vmax := by
      rw [hout]
      dsimp only
      field_simp
      linear_combination (-vmax * vmax) * hs
    refine ⟨hcircle, ?_⟩
    rw [saturation_pass s _ _ vmax (le_of_eq hcircle)]

/-- C7 witness: the theorem applied at the concrete saturating input
`(d, q, V_max) = (3, 4, 1)` with the exact square root `√25 = 5`, and at the
concrete pass-through input `(1, 0, 2)`. -/
theorem C7_saturation_witness :
    ((1 : ℚ) * 1 + 0 * 0 ≤ 2 * 2) ∧
    apply_voltage_saturation (fun _ => 5) 1 0 2 = (1, 0) ∧
    ((1 : ℚ) * 1 < (3 : ℚ) * 3 + 4 * 4) ∧
    ((fun _ => (5 : ℚ)) ((3 : ℚ) * 3 + 4 * 4) * (fun _ => (5 : ℚ)) ((3 : ℚ) * 3 + 4 * 4)
      = (3 : ℚ) * 3 + 4 * 4) ∧
    ((apply_voltage_saturation (fun _ => 5) 3 4 1).1 *
        (apply_voltage_saturation (fun _ => 5) 3 4 1).1 +
      (apply_voltage_saturation (fun _ => 5) 3 4 1).2 *
        (apply_voltage_saturation (fun _ => 5) 3 4 1).2 = 1 * 1) := by
  refine ⟨by norm_num, ?_, by norm_num, by norm_num, ?_⟩
  · exact (C7_saturation_pass_scale_idempotent (fun _ => 5) 1 0 2).1 (by norm_num)
  · exact (((C7_saturation_pass_scale_idempotent (fun _ => 5) 3 4 1).2
      (by norm_num) (by norm_num)).1)

/-- C8: in PQ mode, `compute_current_references` inverts the power
equations: with nonzero PCC voltage, recomputing
`P = 1.5·(v_d·id_ref + v_q·iq_ref)` and `Q = 1.5·(v_q·id_ref − v_d·iq_ref)`
from the returned references recovers `P_ref` and `Q_ref` exactly (hence
within the quoted `1e-9`). -/
theorem C8_pq_control_roundtrip (pr qr vd vq t : ℚ) (x y params : SMap)
    (h : vd * vd + vq * vq ≠ 0) :
    compute_current_references t x y
        { control_mode := some "PQ", P_ref := some pr, Q_ref := some qr,
          v_pcc_d := some vd, v_pcc_q := some vq } params
      = Except.ok [("id_ref", (compute_currents_from_pq pr qr vd vq).1),
                   ("iq_ref", (compute_currents_from_pq pr qr vd vq).2)] ∧
    (1.5 : ℚ) * (vd * (compute_currents_from_pq pr qr vd vq).1 +
        vq * (compute_currents_from_pq pr qr vd vq).2) = pr ∧
    (1.5 : ℚ) * (vq * (compute_currents_from_pq pr qr vd vq).1 -
        vd * (compute_currents_from_pq pr qr vd vq).2) = qr := by
  have hdet : vd * (-vd) - vq * vq ≠ 0 := by
    intro h0
    apply h
    linear_combination -h0
  have hpq : compute_currents_from_pq pr qr vd vq =
      (1 / (vd * (-vd) - vq * vq) * (-vd * (pr / 1.5) - vq * (qr / 1.5)),
       1 / (vd * (-vd) - vq * vq) * (-vq * (pr / 1.5) + vd * (qr / 1.5))) := by
    simp only [compute_currents_from_pq]
    rw [if_neg hdet]
  have hA : vd * (-vd) - vq * vq = -(vd * vd + vq * vq) := by ring
  have hAne : -(vd * vd + vq * vq) ≠ 0 := neg_ne_zero.mpr h
  refine ⟨?_, ?_, ?_⟩
  · simp only [compute_current_references, sgetKey, Option.getD]
    rfl
  · rw [hpq, hA]
    dsimp only
    rw [one_div, eq_comm]
    nth_rewrite 1 [← inv_mul_cancel_left₀ hAne pr]
    ring
  · rw [hpq, hA]
    dsimp only
    rw [one_div, eq_comm]
    nth_rewrite 1 [← inv_mul_cancel_left₀ hAne qr]
    ring

/-- C8 witness: the theorem applied at `P_ref = 3`, `Q_ref = -2`,
`(v_pcc_d, v_pcc_q) = (1, 2)`. -/
theorem C8_pq_control_roundtrip_witness :
    ((1 : ℚ) * 1 + 2 * 2 ≠ 0) ∧
    (1.5 : ℚ) * (1 * (compute_currents_from_pq 3 (-2) 1 2).1 +
        2 * (compute_currents_from_pq 3 (-2) 1 2).2) = 3 := by
  refine ⟨by norm_num, ?_⟩
  exact (C8_pq_control_roundtrip 3 (-2) 1 2 0 [] [] [] (by norm_num)).2.1

/-- C10 (implicit): in PQ mode with both PCC voltages zero, the
zero-determinant guard in `_compute_currents_from_pq` fires, so
`compute_current_references` returns zero current references for every
`P_ref`/`Q_ref` and never reaches the division by `v_d² + v_q²`. -/
theorem C10_pq_zero_voltage_guard (pr qr t : ℚ) (x y params : SMap) :
    compute_current_references t x y
        { control_mode := some "PQ", P_ref := some pr, Q_ref := some qr,
          v_pcc_d := some 0, v_pcc_q := some 0 } params
      = Except.ok [("id_ref", 0), ("iq_ref", 0)] := by
  simp only [compute_current_references, sgetKey, Option.getD,
    compute_currents_from_pq, Bind.bind, Except.bind]
  norm_num

/-! ### `vscsim/solver/integrator.py` -/

/-- `step_forward(x, x_dot, dt)`: the dedicated explicit-Euler stepper.
Note the source reads `x_dot.get(key, 0.0)`: a derivative key absent from
`x_dot` is silently replaced by `0.0`, it does not raise. -/
def step_forward (x x_dot : SMap) (dt : ℚ) : SMap :=
  match x with
  | [] => []
  | (key, value) :: rest =>
    (key, value + dt * getD x_dot key 0) :: step_forward rest x_dot dt

/-! ### `vscsim/solver/integrator_rk.py` -/

/-- Right-hand-side function `f(state, context) -> derivative`
(`RHSFunction` protocol); `Except` models a raising callee. -/
abbrev RHSFn := SMap → SMap → Except String SMap

/-- One state-update loop of an RK stage (the repeated
`for key, value in state.items()` loop of `RK1/RK2/RK4.step`): missing
derivative keys raise, present ones give `value + c * deriv`. -/
def rk_update (k : SMap) (c : ℚ) (stage : String) : SMap → Except String SMap
  | [] => Except.ok []
  | (key, value) :: rest =>
    match getv k key with
    | none => Except.error
        ("KeyError: Falta derivada para la variable de estado " ++ key ++ " en " ++ stage)
    | some d => do
      let tail ← rk_update k c stage rest
      Except.ok ((key, value + c * d) :: tail)

/-- `RK1Integrator.step`. -/
def rk1_step (f : RHSFn) (state : SMap) (dt : ℚ) (context : SMap) :
    Except String SMap := do
  let k1 ← f state context
  rk_update k1 dt "k1" state

/-- `RK2Integrator.step` (midpoint scheme). -/
def rk2_step (f : RHSFn) (state : SMap) (dt : ℚ) (context : SMap) :
    Except String SMap := do
  let k1 ← f state context
  let mid ← rk_update k1 (0.5 * dt) "k1" state
  let k2 ← f mid context
  rk_update k2 dt "k2" state

/-- Final weighted-combination loop of `RK4Integrator.step`; any of the four
derivatives missing for a state key raises. -/
def rk4_combine (k1 k2 k3 k4 : SMap) (dt : ℚ) : SMap → Except String SMap
  | [] => Except.ok []
  | (key, value) :: rest =>
    match getv k1 key, getv k2 key, getv k3 key, getv k4 key with
    | some d1, some d2, some d3, some d4 => do
      let tail ← rk4_combine k1 k2 k3 k4 dt rest
      Except.ok ((key, value + dt / 6 * (d1 + 2 * d2 + 2 * d3 + d4)) :: tail)
    | _, _, _, _ => Except.error
        ("KeyError: Falta derivada para la variable de estado " ++ key ++ " en k1/k2/k3/k4")

/-- `RK4Integrator.step` (classical four-stage scheme). -/
def rk4_step (f : RHSFn) (state : SMap) (dt : ℚ) (context : SMap) :
    Except String SMap := do
  let k1 ← f state context
  let s2 ← rk_update k1 (0.5 * dt) "k1" state
  let k2 ← f s2 context
  let s3 ← rk_update k2 (0.5 * dt) "k2" state
  let k3 ← f s3 context
  let s4 ← rk_update k3 dt "k3" state
  let k4 ← f s4 context
  rk4_combine k1 k2 k3 k4 dt state

/-! ### `vscsim/solver/integrator_factory.py` -/

/-- The closed set of RK schemes the factory can return. -/
inductive IntegratorKind where
  | rk1
  | rk2
  | rk4
deriving DecidableEq, Repr

/-- `get_integrator(name)`: maps a scheme name to an integrator; the alias
`euler` gives RK1; an unknown name raises `ValueError`. -/
def get_integrator (name : String) : Except String IntegratorKind :=
  if name = "rk1" ∨ name = "euler" then Except.ok IntegratorKind.rk1
  else if name = "rk2" then Except.ok IntegratorKind.rk2
  else if name = "rk4" then Except.ok IntegratorKind.rk4
  else Except.error ("ValueError: Integrador no soportado: " ++ name)

/-- Dispatch of `BaseIntegrator.step` over the scheme returned by the
factory. -/
def integrator_step : IntegratorKind → RHSFn → SMap → ℚ → SMap → Except String SMap
  | IntegratorKind.rk1 => rk1_step
  | IntegratorKind.rk2 => rk2_step
  | IntegratorKind.rk4 => rk4_step

/-- Discriminator for modelled Python calls: `true` iff no exception. -/
def isOk {α : Type} : Except String α → Bool
  | Except.ok _ => true
  | Except.error _ => false

/-! ### Claims C4, C9 -/

/-- An RK stage-update loop raises as soon as some state key has no
derivative in the stage mapping. -/
theorem rk_update_missing (k : SMap) (c : ℚ) (stage key : String) :
    ∀ state : SMap, key ∈ keys state → getv k key = none →
      ∃ e, rk_update k c stage state = Except.error e := by
  intro state
  induction state with
  | nil => intro hmem; exact absurd hmem (by simp [keys])
  | cons hd tl ih =>
    intro hmem hmiss
    obtain ⟨key0, value0⟩ := hd
    rcases List.mem_cons.mp hmem with heq | htl
    · simp only [rk_update]
      have : getv k key0 = none := by
        rw [show key0 = key from heq.symm ▸ rfl]
        exact hmiss
      rw [this]
      exact ⟨_, rfl⟩
    · simp only [rk_update]
      cases hk0 : getv k key0 with
      | none => exact ⟨_, rfl⟩
      | some d =>
        obtain ⟨e, he⟩ := ih htl hmiss
        rw [he]
        exact ⟨e, rfl⟩

/-- An RK stage-update loop with a complete derivative mapping computes
exactly the explicit-Euler update with coefficient `c`. -/
theorem rk_update_complete (k : SMap) (c : ℚ) (stage : String) :
    ∀ state : SMap, (∀ key ∈ keys state, (getv k key).isSome) →
      rk_update k c stage state = Except.ok (step_forward state k c) := by
  intro state
  induction state with
  | nil => intro _; rfl
  | cons hd tl ih =>
    intro hall
    obtain ⟨key0, value0⟩ := hd
    have h0 : (getv k key0).isSome := hall key0 (by simp [keys])
    cases hk0 : getv k key0 with
    | none => rw [hk0] at h0; exact absurd h0 (by simp)
    | some d =>
      have htl := ih (fun key hmem => hall key (by simp [keys] at hmem ⊢; exact Or.inr hmem))
      simp only [rk_update, hk0, htl, step_forward, Bind.bind, Except.bind]
      simp [getD, hk0]

/-- C4 (amended): the generic RK1/RK2/RK4 steppers raise a
missing-derivative `KeyError` whenever the derivative mapping produced by
`f` lacks a key present in the state mapping — but the dedicated Euler
stepper `step_forward` does NOT raise: it is total, substituting `0.0` for
every missing derivative (the affected component is advanced by `dt·0`).
The original claim is therefore false for `step_forward` (see the
counterexample). -/
theorem C4_missing_derivative_behaviour :
    (∀ (f : RHSFn) (state : SMap) (dt : ℚ) (context : SMap) (key : String),
      key ∈ keys state →
      (∀ s k, f s context = Except.ok k → getv k key = none) →
      isOk (rk1_step f state dt context) = false ∧
      isOk (rk2_step f state dt context) = false ∧
      isOk (rk4_step f state dt context) = false) ∧
    (∀ (x x_dot : SMap) (dt : ℚ),
      step_forward x x_dot dt
        = x.map (fun kv => (kv.1, kv.2 + dt * getD x_dot kv.1 0))) := by
  constructor
  · intro f state dt context key hmem hmiss
    refine ⟨?_, ?_, ?_⟩
    · cases hfe : f state context with
      | error e => simp [rk1_step, hfe, isOk, Bind.bind, Except.bind]
      | ok k =>
        obtain ⟨e, he⟩ := rk_update_missing k dt "k1" key state hmem (hmiss state k hfe)
        simp [rk1_step, hfe, he, isOk, Bind.bind, Except.bind]
    · cases hfe : f state context with
      | error e => simp [rk2_step, hfe, isOk, Bind.bind, Except.bind]
      | ok k =>
        obtain ⟨e, he⟩ :=
          rk_update_missing k (0.5 * dt) "k1" key state hmem (hmiss state k hfe)
        simp [rk2_step, hfe, he, isOk, Bind.bind, Except.bind]
    · cases hfe : f state context with
      | error e => simp [rk4_step, hfe, isOk, Bind.bind, Except.bind]
      | ok k =>
        obtain ⟨e, he⟩ :=
          rk_update_missing k (0.5 * dt) "k1" key state hmem (hmiss state k hfe)
        simp [rk4_step, hfe, he, isOk, Bind.bind, Except.bind]
  · intro x x_dot dt
    induction x with
    | nil => rfl
    | cons hd tl ih => simp [step_forward, ih]

/-- C4 counterexample: the claim as frozen says every integrator step
function, `step_forward` included, raises on a missing derivative key.  At
state `x = [id: 1]` with the empty derivative mapping, `step_forward`
instead returns the state unchanged (no error), while the RK1 stepper with
an RHS returning the empty mapping does raise. -/
theorem C4_counterexample :
    step_forward [("id", (1 : ℚ))] [] 1 = [("id", (1 : ℚ))] ∧
    isOk (rk1_step (fun _ _ => Except.ok []) [("id", (1 : ℚ))] 1 []) = false := by
  with_unfolding_all decide

/-- C4 witness: the amended theorem applied at the concrete RK2 stepper
with an RHS that returns an empty derivative mapping. -/
theorem C4_missing_derivative_witness :
    ("id" ∈ keys [("id", (1 : ℚ))]) ∧
    isOk (rk2_step (fun _ _ => Except.ok []) [("id", (1 : ℚ))] 1 []) = false := by
  refine ⟨by decide, ?_⟩
  exact (C4_missing_derivative_behaviour.1 (fun _ _ => Except.ok [])
    [("id", (1 : ℚ))] 1 [] "id" (by decide)
    (by intro s k h; cases h; rfl)).2.1

/-- C9: for every state, step size and derivative function that supplies a
derivative for every key of the state, the generic RK1 step and the
dedicated Euler stepper agree exactly, key by key (exact equality in this
model, hence within the quoted `1e-12`). -/
theorem C9_rk1_euler_equivalence (f : RHSFn) (state : SMap) (dt : ℚ)
    (context k : SMap)
    (hf : f state context = Except.ok k)
    (hcomplete : ∀ key ∈ keys state, (getv k key).isSome) :
    rk1_step f state dt context = Except.ok (step_forward state k dt) := by
  simp only [rk1_step, hf, Bind.bind, Except.bind]
  exact rk_update_complete k dt "k1" state hcomplete

/-- C9 witness: the equivalence applied at the concrete one-variable state
`[id: 1]` with constant derivative 2. -/
theorem C9_rk1_euler_witness :
    ((fun _ _ => (Except.ok [("id", (2 : ℚ))] : Except String SMap))
        ([("id", (1 : ℚ))] : SMap) ([] : SMap) = Except.ok [("id", (2 : ℚ))]) ∧
    rk1_step (fun _ _ => Except.ok [("id", (2 : ℚ))]) [("id", (1 : ℚ))] 1 []
      = Except.ok (step_forward [("id", (1 : ℚ))] [("id", (2 : ℚ))] 1) := by
  refine ⟨rfl, ?_⟩
  exact C9_rk1_euler_equivalence _ _ 1 [] [("id", (2 : ℚ))] rfl
    (by with_unfolding_all decide)

/-! ### `vscsim/solver/nr.py` — `_solve_linear_system`

The source solves `J · delta = -res` by *simple* Gaussian elimination
(its own docstring: eliminacion gaussiana simple): the pivot is always the
current diagonal entry `aug[k][k]`; there is no row swap / pivot search.
A zero diagonal pivot raises `ZeroDivisionError`, even when the matrix is
nonsingular. -/

/-- Python list indexing: `IndexError` when out of range. -/
def idx {α : Type} (xs : List α) (i : ℕ) : Except String α :=
  match xs.get? i with
  | some v => Except.ok v
  | none => Except.error "IndexError"

/-- In-place update of the entries at positions `lo..hi` of a row, mirroring
a Python loop `for j in range(lo, hi + 1): row[j] = f(j, row[j])`.  The
running index `j` is the position of the head of the remaining list. -/
def map_idx_cond (lo hi : ℕ) (f : ℕ → ℚ → ℚ) : ℕ → List ℚ → List ℚ
  | _, [] => []
  | j, v :: rest =>
    (if lo ≤ j ∧ j ≤ hi then f j v else v) :: map_idx_cond lo hi f (j + 1) rest

/-- Construction of the augmented matrix
`aug = [list(row) + [-res[i]] for i, row in enumerate(jac)]`. -/
def build_aug (res : List ℚ) : ℕ → List (List ℚ) → Except String (List (List ℚ))
  | _, [] => Except.ok []
  | i, row :: rest => do
    let ri ← idx res i
    let tail ← build_aug res (i + 1) rest
    Except.ok ((row ++ [-ri]) :: tail)

/-- Elimination of one row below the pivot row: with `factor = row[k]`,
skip when `factor == 0`, else `row[j] -= factor * rowk[j]` for
`j = k..n`.  The `idx row n` probe mirrors the `IndexError` Python raises
when the row is shorter than `n + 1`. -/
def sub_row (rowk : List ℚ) (k n : ℕ) (row : List ℚ) : Except String (List ℚ) := do
  let factor ← idx row k
  if factor = 0 then
    Except.ok row
  else do
    let _ ← idx row n
    Except.ok (map_idx_cond k n (fun j v => v - factor * rowk.getD j 0) 0 row)

/-- The `for i in range(k + 1, n)` loop of the forward elimination; `i` is
the index of the head of the remaining row list. -/
def elim_below (rowk : List ℚ) (k n : ℕ) : ℕ → List (List ℚ) → Except String (List (List ℚ))
  | _, [] => Except.ok []
  | i, row :: rest => do
    let row2 ← if k + 1 ≤ i ∧ i < n then sub_row rowk k n row else Except.ok row
    let rest2 ← elim_below rowk k n (i + 1) rest
    Except.ok (row2 :: rest2)

/-- One iteration of the outer `for k in range(n)` loop: raise on a zero
diagonal pivot (no pivot search), scale row `k` by `1 / pivot` on columns
`k..n`, then eliminate the rows below. -/
def elim_step (n k : ℕ) (aug : List (List ℚ)) : Except String (List (List ℚ)) := do
  let rowk ← idx aug k
  let pivot ← idx rowk k
  if pivot = 0 then
    Except.error "ZeroDivisionError: Pivot cero en eliminacion gaussiana (Jacobiana singular)."
  else do
    let _ ← idx rowk n
    let rowk2 := map_idx_cond k n (fun _ v => v * (1 / pivot)) 0 rowk
    let aug2 := aug.set k rowk2
    elim_below rowk2 k n 0 aug2

/-- The outer elimination loop, `for k in range(n)` (counted down by the
remaining number of columns). -/
def elim_loop (n : ℕ) : ℕ → ℕ → List (List ℚ) → Except String (List (List ℚ))
  | _, 0, aug => Except.ok aug
  | k, cnt + 1, aug => do
    let aug2 ← elim_step n k aug
    elim_loop n (k + 1) cnt aug2

/-- `sum(aug[i][j] * delta[j] for j in range(j0, ...))`: dot product of a
row segment starting at column `j0` against a vector. -/
def dot_from (row : List ℚ) : ℕ → List ℚ → ℚ
  | _, [] => 0
  | j, d :: ds => row.getD j 0 * d + dot_from row (j + 1) ds

/-- Back substitution, producing `[delta_i, ..., delta_{n-1}]`:
`delta[i] = aug[i][n] - sum(aug[i][j] * delta[j] for j in range(i+1, n))`. -/
def back_sub (aug : List (List ℚ)) (n : ℕ) : ℕ → ℕ → Except String (List ℚ)
  | _, 0 => Except.ok []
  | i, cnt + 1 => do
    let tail ← back_sub aug n (i + 1) cnt
    let rowi ← idx aug i
    let rhs ← idx rowi n
    Except.ok ((rhs - dot_from rowi (i + 1) tail) :: tail)

/-- `_solve_linear_system(jac, res)`: solves `J · delta = -res` by simple
Gaussian elimination (no pivoting) followed by back substitution. -/
def solve_linear_system (jac : List (List ℚ)) (res : List ℚ) : Except String (List ℚ) := do
  let n := res.length
  let aug ← build_aug res 0 jac
  let aug2 ← elim_loop n 0 n aug
  back_sub aug2 n 0 n

/-! #### Correctness of the (pivotless) elimination

Invariants of the forward elimination, phrased on `getD`-entries:
`WF` is the augmented-matrix shape, `lower_ready n k` says the rows from
`k` on have zeros left of column `k`, `upper_done n k` says the rows
before `k` carry a unit diagonal with zeros to its left, and `sol` is the
statement that a vector satisfies every row equation of the augmented
system. -/

/-- Shape of an `n × (n+1)` augmented matrix. -/
def WF (n : ℕ) (aug : List (List ℚ)) : Prop :=
  aug.length = n ∧ ∀ m, m < n → (aug.getD m []).length = n + 1

/-- Rows `k..n-1` have zero entries in columns `0..k-1`. -/
def lower_ready (n k : ℕ) (aug : List (List ℚ)) : Prop :=
  ∀ i j, k ≤ i → i < n → j < k → (aug.getD i []).getD j 0 = 0

/-- Rows `0..k-1` are in eliminated form: unit diagonal, zeros to its
left. -/
def upper_done (k : ℕ) (aug : List (List ℚ)) : Prop :=
  ∀ i, i < k → (aug.getD i []).getD i 0 = 1 ∧
    ∀ j, j < i → (aug.getD i []).getD j 0 = 0

/-- `xs` satisfies every row equation of the augmented system. -/
def sol (n : ℕ) (aug : List (List ℚ)) (xs : List ℚ) : Prop :=
  ∀ i, i < n → dot_from (aug.getD i []) 0 xs = (aug.getD i []).getD n 0

theorem idx_eq_ok {α : Type} (d : α) :
    ∀ (xs : List α) (i : ℕ), i < xs.length → idx xs i = Except.ok (xs.getD i d) := by
  intro xs
  induction xs with
  | nil => intro i h; exact absurd h (by simp)
  | cons hd tl ih =>
    intro i h
    cases i with
    | zero => rfl
    | succ m => exact ih m (by simpa using h)

theorem idx_err {α : Type} :
    ∀ (xs : List α) (i : ℕ), xs.length ≤ i → idx xs i = Except.error "IndexError" := by
  intro xs
  induction xs with
  | nil => intro i _; rfl
  | cons hd tl ih =>
    intro i h
    cases i with
    | zero => exact absurd h (by simp)
    | succ m => exact ih m (by simpa using h)

theorem getD_set {α : Type} (d : α) :
    ∀ (l : List α) (k i : ℕ) (v : α),
      (l.set k v).getD i d = if i = k ∧ k < l.length then v else l.getD i d := by
  intro l
  induction l with
  | nil => intro k i v; simp
  | cons hd tl ih =>
    intro k i v
    cases k with
    | zero =>
      cases i with
      | zero => simp
      | succ m => simp
    | succ k0 =>
      cases i with
      | zero => simp
      | succ m =>
        have lhs : ((hd :: tl).set (k0 + 1) v).getD (m + 1) d = (tl.set k0 v).getD m d := rfl
        have rhs : (hd :: tl).getD (m + 1) d = tl.getD m d := rfl
        rw [lhs, ih k0 m v, rhs]
        simp only [List.length_cons]
        by_cases hc : m = k0 ∧ k0 < tl.length
        · rw [if_pos hc, if_pos (by omega)]
        · rw [if_neg hc, if_neg (by omega)]

theorem length_map_idx_cond (lo hi : ℕ) (f : ℕ → ℚ → ℚ) :
    ∀ (xs : List ℚ) (j : ℕ), (map_idx_cond lo hi f j xs).length = xs.length := by
  intro xs
  induction xs with
  | nil => intro j; rfl
  | cons v rest ih => intro j; simp [map_idx_cond, ih]

theorem getD_map_idx_cond (lo hi : ℕ) (f : ℕ → ℚ → ℚ) :
    ∀ (xs : List ℚ) (j i : ℕ), i < xs.length →
      (map_idx_cond lo hi f j xs).getD i 0
        = if lo ≤ j + i ∧ j + i ≤ hi then f (j + i) (xs.getD i 0) else xs.getD i 0 := by
  intro xs
  induction xs with
  | nil => intro j i h; exact absurd h (by simp)
  | cons v rest ih =>
    intro j i h
    cases i with
    | zero => simpa [map_idx_cond] using rfl
    | succ m =>
      have heq : j + (m + 1) = (j + 1) + m := by omega
      have lhs : (map_idx_cond lo hi f j (v :: rest)).getD (m + 1) 0
          = (map_idx_cond lo hi f (j + 1) rest).getD m 0 := rfl
      rw [lhs, ih (j + 1) m (by simpa using h), heq]
      rfl

theorem dot_from_congr (r1 r2 : List ℚ) :
    ∀ (xs : List ℚ) (j : ℕ),
      (∀ p, p < xs.length → r1.getD (j + p) 0 = r2.getD (j + p) 0) →
      dot_from r1 j xs = dot_from r2 j xs := by
  intro xs
  induction xs with
  | nil => intro j _; rfl
  | cons x rest ih =>
    intro j h
    have h0 : r1.getD j 0 = r2.getD j 0 := by simpa using h 0 (by simp)
    have hrest : ∀ p, p < rest.length → r1.getD (j + 1 + p) 0 = r2.getD (j + 1 + p) 0 := by
      intro p hp
      have := h (p + 1) (by simpa using Nat.succ_lt_succ hp)
      rwa [show j + (p + 1) = j + 1 + p by omega] at this
    simp only [dot_from, h0, ih (j + 1) hrest]

theorem dot_from_scale (r1 r2 : List ℚ) (c : ℚ) :
    ∀ (xs : List ℚ) (j : ℕ),
      (∀ p, p < xs.length → r2.getD (j + p) 0 = r1.getD (j + p) 0 * c) →
      dot_from r2 j xs = c * dot_from r1 j xs := by
  intro xs
  induction xs with
  | nil => intro j _; simp [dot_from]
  | cons x rest ih =>
    intro j h
    have h0 : r2.getD j 0 = r1.getD j 0 * c := by simpa using h 0 (by simp)
    have hrest : ∀ p, p < rest.length → r2.getD (j + 1 + p) 0 = r1.getD (j + 1 + p) 0 * c := by
      intro p hp
      have := h (p + 1) (by simpa using Nat.succ_lt_succ hp)
      rwa [show j + (p + 1) = j + 1 + p by omega] at this
    simp only [dot_from, h0, ih (j + 1) hrest]
    ring

theorem dot_from_sub (r1 r2 r3 : List ℚ) (c : ℚ) :
    ∀ (xs : List ℚ) (j : ℕ),
      (∀ p, p < xs.length →
        r3.getD (j + p) 0 = r1.getD (j + p) 0 - c * r2.getD (j + p) 0) →
      dot_from r3 j xs = dot_from r1 j xs - c * dot_from r2 j xs := by
  intro xs
  induction xs with
  | nil => intro j _; simp [dot_from]
  | cons x rest ih =>
    intro j h
    have h0 : r3.getD j 0 = r1.getD j 0 - c * r2.getD j 0 := by simpa using h 0 (by simp)
    have hrest : ∀ p, p < rest.length →
        r3.getD (j + 1 + p) 0 = r1.getD (j + 1 + p) 0 - c * r2.getD (j + 1 + p) 0 := by
      intro p hp
      have := h (p + 1) (by simpa using Nat.succ_lt_succ hp)
      rwa [show j + (p + 1) = j + 1 + p by omega] at this
    simp only [dot_from, h0, ih (j + 1) hrest]
    ring

theorem dot_from_zero_prefix (row : List ℚ) :
    ∀ (t : ℕ) (xs : List ℚ) (j : ℕ),
      (∀ p, p < t → row.getD (j + p) 0 = 0) →
      dot_from row j xs = dot_from row (j + t) (xs.drop t) := by
  intro t
  induction t with
  | zero => intro xs j _; simp
  | succ t0 ih =>
    intro xs j h
    cases xs with
    | nil => simp [dot_from]
    | cons x rest =>
      have h0 : row.getD j 0 = 0 := by simpa using h 0 (by omega)
      have hrest : ∀ p, p < t0 → row.getD (j + 1 + p) 0 = 0 := by
        intro p hp
        have := h (p + 1) (by omega)
        rwa [show j + (p + 1) = j + 1 + p by omega] at this
      have : dot_from row (j + 1) rest = dot_from row (j + 1 + t0) (rest.drop t0) :=
        ih rest (j + 1) hrest
      simp only [dot_from, h0, List.drop_succ_cons, this, zero_mul, zero_add]
      rw [show j + 1 + t0 = j + (t0 + 1) by omega]

theorem dot_from_append (row ext : List ℚ) :
    ∀ (xs : List ℚ) (j : ℕ), j + xs.length ≤ row.length →
      dot_from (row ++ ext) j xs = dot_from row j xs := by
  intro xs j h
  refine dot_from_congr _ _ xs j ?_
  intro p hp
  exact List.getD_append _ _ _ _ (by omega)

/-- Value and range information extracted from a successful `idx`. -/
theorem idx_ok_imp {α : Type} (d : α) (xs : List α) (i : ℕ) (v : α)
    (h : idx xs i = Except.ok v) : xs.getD i d = v ∧ i < xs.length := by
  by_cases hr : i < xs.length
  · rw [idx_eq_ok d xs i hr] at h
    exact ⟨(Except.ok.injEq _ _).mp h, hr⟩
  · rw [idx_err xs i (by omega)] at h
    exact absurd h (by simp)

/-- The row transform applied by `sub_row` to each row below the pivot
row (subtracting `factor` times the scaled pivot row on columns `k..n`;
the `factor == 0` skip returns the row unchanged, which has the same
entries). -/
def sub_transform (rowk : List ℚ) (k n : ℕ) (row : List ℚ) : List ℚ :=
  if row.getD k 0 = 0 then row
  else map_idx_cond k n (fun j v => v - row.getD k 0 * rowk.getD j 0) 0 row

theorem length_sub_transform (rowk : List ℚ) (k n : ℕ) (row : List ℚ) :
    (sub_transform rowk k n row).length = row.length := by
  unfold sub_transform
  by_cases h : row.getD k 0 = 0
  · rw [if_pos h]
  · rw [if_neg h, length_map_idx_cond]

theorem getD_sub_transform (rowk row : List ℚ) (k n j : ℕ) (hj : j ≤ n)
    (hlen : row.length = n + 1) :
    (sub_transform rowk k n row).getD j 0
      = if k ≤ j then row.getD j 0 - row.getD k 0 * rowk.getD j 0
        else row.getD j 0 := by
  unfold sub_transform
  by_cases hf : row.getD k 0 = 0
  · rw [if_pos hf, hf]
    by_cases hkj : k ≤ j
    · rw [if_pos hkj]; ring
    · rw [if_neg hkj]
  · rw [if_neg hf]
    rw [getD_map_idx_cond _ _ _ row 0 j (by omega)]
    simp only [Nat.zero_add]
    by_cases hkj : k ≤ j
    · rw [if_pos ⟨hkj, hj⟩, if_pos hkj]
    · rw [if_neg (fun hc => hkj hc.1), if_neg hkj]

theorem sub_row_spec (rowk row row2 : List ℚ) (k n : ℕ)
    (h : sub_row rowk k n row = Except.ok row2) :
    row2 = sub_transform rowk k n row := by
  unfold sub_row at h
  cases hik : idx row k with
  | error e => rw [hik] at h; exact absurd h (by simp [Bind.bind, Except.bind])
  | ok f =>
    rw [hik] at h
    obtain ⟨hfd, _⟩ := idx_ok_imp 0 row k f hik
    simp only [Bind.bind, Except.bind] at h
    unfold sub_transform
    by_cases hf : f = 0
    · rw [if_pos hf] at h
      rw [hfd, if_pos hf]
      exact ((Except.ok.injEq _ _).mp h).symm
    · rw [if_neg hf] at h
      rw [hfd, if_neg hf]
      cases hin : idx row n with
      | error e => rw [hin] at h; exact absurd h (by simp)
      | ok w =>
        rw [hin] at h
        exact ((Except.ok.injEq _ _).mp h).symm

theorem elim_below_spec (rowk : List ℚ) (k n : ℕ) :
    ∀ (rows : List (List ℚ)) (i : ℕ) (rows2 : List (List ℚ)),
      elim_below rowk k n i rows = Except.ok rows2 →
      rows2.length = rows.length ∧
      ∀ m, rows2.getD m []
        = if k + 1 ≤ i + m ∧ i + m < n then sub_transform rowk k n (rows.getD m [])
          else rows.getD m [] := by
  intro rows
  induction rows with
  | nil =>
    intro i rows2 h
    simp only [elim_below] at h
    cases h
    refine ⟨rfl, ?_⟩
    intro m
    have hst : sub_transform rowk k n [] = [] := by
      unfold sub_transform
      rw [if_pos (by simp)]
    by_cases hc : k + 1 ≤ i + m ∧ i + m < n
    · rw [if_pos hc]
      simp [hst]
    · rw [if_neg hc]
  | cons row rest ih =>
    intro i rows2 h
    simp only [elim_below, Bind.bind, Except.bind] at h
    by_cases hc : k + 1 ≤ i ∧ i < n
    · rw [if_pos hc] at h
      cases hsr : sub_row rowk k n row with
      | error e => rw [hsr] at h; exact absurd h (by simp)
      | ok row2h =>
        rw [hsr] at h
        cases hreb : elim_below rowk k n (i + 1) rest with
        | error e => rw [hreb] at h; exact absurd h (by simp)
        | ok rest2 =>
          rw [hreb] at h
          cases h
          obtain ⟨hlen2, hent⟩ := ih (i + 1) rest2 hreb
          refine ⟨by simp [hlen2], ?_⟩
          intro m
          cases m with
          | zero =>
            have l1 : (row2h :: rest2).getD 0 [] = row2h := rfl
            have l2 : (row :: rest).getD 0 [] = row := rfl
            rw [l1, l2, if_pos (show k + 1 ≤ i + 0 ∧ i + 0 < n by omega)]
            exact sub_row_spec rowk row row2h k n hsr
          | succ m0 =>
            have l1 : (row2h :: rest2).getD (m0 + 1) [] = rest2.getD m0 [] := rfl
            have l2 : (row :: rest).getD (m0 + 1) [] = rest.getD m0 [] := rfl
            rw [l1, l2, hent m0, show i + 1 + m0 = i + (m0 + 1) by omega]
    · rw [if_neg hc] at h
      cases hreb : elim_below rowk k n (i + 1) rest with
      | error e => rw [hreb] at h; exact absurd h (by simp)
      | ok rest2 =>
        rw [hreb] at h
        cases h
        obtain ⟨hlen2, hent⟩ := ih (i + 1) rest2 hreb
        refine ⟨by simp [hlen2], ?_⟩
        intro m
        cases m with
        | zero =>
          have l1 : (row :: rest2).getD 0 [] = row := rfl
          have l2 : (row :: rest).getD 0 [] = row := rfl
          rw [l1, l2, if_neg (show ¬(k + 1 ≤ i + 0 ∧ i + 0 < n) by omega)]
        | succ m0 =>
          have l1 : (row :: rest2).getD (m0 + 1) [] = rest2.getD m0 [] := rfl
          have l2 : (row :: rest).getD (m0 + 1) [] = rest.getD m0 [] := rfl
          rw [l1, l2, hent m0, show i + 1 + m0 = i + (m0 + 1) by omega]

/-- The scaled pivot row produced at step `k`. -/
def pivot_scaled (n k : ℕ) (aug : List (List ℚ)) : List ℚ :=
  map_idx_cond k n (fun _ v => v * (1 / (aug.getD k []).getD k 0)) 0 (aug.getD k [])

/-- Row `m` of the matrix after elimination step `k`. -/
def elim_step_result (n k : ℕ) (aug : List (List ℚ)) (m : ℕ) : List ℚ :=
  if m = k then pivot_scaled n k aug
  else if k + 1 ≤ m ∧ m < n then sub_transform (pivot_scaled n k aug) k n (aug.getD m [])
  else aug.getD m []

theorem elim_step_spec (n k : ℕ) (aug aug2 : List (List ℚ))
    (hWF : WF n aug) (hk : k < n)
    (h : elim_step n k aug = Except.ok aug2) :
    (aug.getD k []).getD k 0 ≠ 0 ∧
    aug2.length = n ∧
    (∀ m, aug2.getD m [] = elim_step_result n k aug m) := by
  obtain ⟨hlen, hrows⟩ := hWF
  have hrk : idx aug k = Except.ok (aug.getD k []) := idx_eq_ok [] aug k (by omega)
  have hrklen : (aug.getD k []).length = n + 1 := hrows k hk
  have hpv : idx (aug.getD k []) k = Except.ok ((aug.getD k []).getD k 0) :=
    idx_eq_ok 0 _ k (by omega)
  have hn : idx (aug.getD k []) n = Except.ok ((aug.getD k []).getD n 0) :=
    idx_eq_ok 0 _ n (by omega)
  unfold elim_step at h
  rw [hrk] at h
  simp only [Bind.bind, Except.bind] at h
  rw [hpv] at h
  dsimp only at h
  by_cases hp : (aug.getD k []).getD k 0 = 0
  · rw [if_pos hp] at h
    exact absurd h (by simp)
  · rw [if_neg hp, hn] at h
    dsimp only at h
    obtain ⟨hlen2, hent⟩ :=
      elim_below_spec (pivot_scaled n k aug) k n
        (aug.set k (pivot_scaled n k aug)) 0 aug2 h
    refine ⟨hp, by simp [hlen2, hlen], ?_⟩
    intro m
    rw [hent m]
    have hset : ∀ m2 : ℕ, (aug.set k (pivot_scaled n k aug)).getD m2 []
        = if m2 = k ∧ k < aug.length then pivot_scaled n k aug else aug.getD m2 [] :=
      fun m2 => getD_set [] aug k m2 _
    unfold elim_step_result
    by_cases hmk : m = k
    · rw [if_pos hmk, if_neg (show ¬(k + 1 ≤ 0 + m ∧ 0 + m < n) by omega)]
      rw [hset m, if_pos ⟨hmk, by omega⟩]
    · rw [if_neg hmk]
      by_cases hc : k + 1 ≤ m ∧ m < n
      · rw [if_pos hc, if_pos (show k + 1 ≤ 0 + m ∧ 0 + m < n by omega)]
        rw [hset m, if_neg (fun hx => hmk hx.1)]
      · rw [if_neg hc, if_neg (show ¬(k + 1 ≤ 0 + m ∧ 0 + m < n) by omega)]
        rw [hset m, if_neg (fun hx => hmk hx.1)]

theorem getD_pivot_scaled (n k j : ℕ) (aug : List (List ℚ)) (hj : j ≤ n)
    (hrklen : (aug.getD k []).length = n + 1) :
    (pivot_scaled n k aug).getD j 0
      = if k ≤ j then (aug.getD k []).getD j 0 * (1 / (aug.getD k []).getD k 0)
        else (aug.getD k []).getD j 0 := by
  unfold pivot_scaled
  rw [getD_map_idx_cond _ _ _ _ 0 j (by omega)]
  simp only [Nat.zero_add]
  by_cases hkj : k ≤ j
  · rw [if_pos ⟨hkj, hj⟩, if_pos hkj]
  · rw [if_neg (fun hx => hkj hx.1), if_neg hkj]

theorem elim_step_invariants (n k : ℕ) (aug aug2 : List (List ℚ))
    (hWF : WF n aug) (hk : k < n)
    (hlow : lower_ready n k aug) (hup : upper_done k aug)
    (h : elim_step n k aug = Except.ok aug2) :
    WF n aug2 ∧ lower_ready n (k + 1) aug2 ∧ upper_done (k + 1) aug2 ∧
    (∀ xs : List ℚ, xs.length = n → sol n aug2 xs → sol n aug xs) := by
  obtain ⟨hp, hlen2, hent⟩ := elim_step_spec n k aug aug2 hWF hk h
  obtain ⟨hlen, hrows⟩ := hWF
  have hrklen : (aug.getD k []).length = n + 1 := hrows k hk
  -- Entries of the scaled pivot row.
  have hscale : ∀ j, j ≤ n →
      (pivot_scaled n k aug).getD j 0
        = (aug.getD k []).getD j 0 * (1 / (aug.getD k []).getD k 0) := by
    intro j hj
    rw [getD_pivot_scaled n k j aug hj hrklen]
    by_cases hkj : k ≤ j
    · rw [if_pos hkj]
    · rw [if_neg hkj, hlow k j (le_refl k) hk (by omega)]
      ring
  have hz : ∀ j, j < k → (pivot_scaled n k aug).getD j 0 = 0 := by
    intro j hj
    rw [hscale j (by omega), hlow k j (le_refl k) hk hj]
    ring
  have hone : (pivot_scaled n k aug).getD k 0 = 1 := by
    rw [hscale k (by omega), mul_one_div, div_self hp]
  have hlps : (pivot_scaled n k aug).length = n + 1 := by
    unfold pivot_scaled
    rw [length_map_idx_cond, hrklen]
  -- Entries of the eliminated rows below the pivot.
  have hbelow : ∀ i, k + 1 ≤ i → i < n → ∀ j, j ≤ n →
      (aug2.getD i []).getD j 0
        = (aug.getD i []).getD j 0
          - (aug.getD i []).getD k 0 * (pivot_scaled n k aug).getD j 0 := by
    intro i hi1 hi2 j hj
    rw [hent i]
    unfold elim_step_result
    rw [if_neg (by omega), if_pos ⟨hi1, hi2⟩]
    rw [getD_sub_transform _ _ k n j hj (hrows i hi2)]
    by_cases hkj : k ≤ j
    · rw [if_pos hkj]
    · rw [if_neg hkj, hz j (by omega), hlow i j (by omega) hi2 (by omega)]
      ring
  have hrowk2 : aug2.getD k [] = pivot_scaled n k aug := by
    rw [hent k]
    unfold elim_step_result
    rw [if_pos rfl]
  have hsame : ∀ i, i < k → aug2.getD i [] = aug.getD i [] := by
    intro i hi
    rw [hent i]
    unfold elim_step_result
    rw [if_neg (by omega), if_neg (by omega)]
  refine ⟨⟨hlen2, ?_⟩, ?_, ?_, ?_⟩
  · -- WF of the result
    intro m hm
    rw [hent m]
    unfold elim_step_result
    by_cases hmk : m = k
    · rw [if_pos hmk, hlps]
    · rw [if_neg hmk]
      by_cases hc : k + 1 ≤ m ∧ m < n
      · rw [if_pos hc, length_sub_transform, hrows m hm]
      · rw [if_neg hc, hrows m hm]
  · -- lower_ready n (k+1)
    intro i j hi1 hi2 hj
    rw [hbelow i hi1 hi2 j (by omega)]
    by_cases hjk : j < k
    · rw [hlow i j (by omega) hi2 hjk, hz j hjk]
      ring
    · have hjeq : j = k := by omega
      rw [hjeq, hone]
      ring
  · -- upper_done (k+1)
    intro i hi
    by_cases hik : i < k
    · rw [hsame i hik]
      exact ⟨(hup i hik).1, fun j hj => (hup i hik).2 j hj⟩
    · have hieq : i = k := by omega
      rw [hieq, hrowk2]
      exact ⟨hone, fun j hj => hz j hj⟩
  · -- a solution of the transformed system solves the original one
    intro xs hxs hsol2
    have hpiv : dot_from (aug.getD k []) 0 xs = (aug.getD k []).getD n 0 := by
      have hs := hsol2 k hk
      rw [hrowk2] at hs
      have hd : dot_from (pivot_scaled n k aug) 0 xs
          = (1 / (aug.getD k []).getD k 0) * dot_from (aug.getD k []) 0 xs :=
        dot_from_scale (aug.getD k []) (pivot_scaled n k aug)
          (1 / (aug.getD k []).getD k 0) xs 0
          (fun p hp2 => by rw [Nat.zero_add]; exact hscale p (by omega))
      rw [hd, hscale n (le_refl n)] at hs
      have hinv : (1 / (aug.getD k []).getD k 0) ≠ 0 := one_div_ne_zero hp
      exact mul_left_cancel₀ hinv (hs.trans (mul_comm _ _))
    intro i hi
    by_cases hik : i < k
    · have := hsol2 i hi
      rwa [hsame i hik] at this
    · by_cases hieq : i = k
      · rw [hieq]; exact hpiv
      · have hi1 : k + 1 ≤ i := by omega
        have hs := hsol2 i hi
        have hd : dot_from (aug2.getD i []) 0 xs
            = dot_from (aug.getD i []) 0 xs
              - (aug.getD i []).getD k 0 * dot_from (pivot_scaled n k aug) 0 xs := by
          refine dot_from_sub _ _ _ _ xs 0 ?_
          intro p hp2
          rw [Nat.zero_add]
          exact hbelow i hi1 hi p (by omega)
        have hdk : dot_from (pivot_scaled n k aug) 0 xs = (pivot_scaled n k aug).getD n 0 := by
          have := hsol2 k hk
          rwa [hrowk2] at this
        rw [hd, hdk, hbelow i hi1 hi n (le_refl n)] at hs
        linarith [hs]

theorem elim_loop_spec (n : ℕ) :
    ∀ (cnt k : ℕ) (aug aug2 : List (List ℚ)),
      k + cnt = n → WF n aug → lower_ready n k aug → upper_done k aug →
      elim_loop n k cnt aug = Except.ok aug2 →
      WF n aug2 ∧ upper_done n aug2 ∧
      (∀ xs, xs.length = n → sol n aug2 xs → sol n aug xs) := by
  intro cnt
  induction cnt with
  | zero =>
    intro k aug aug2 hkn hWF _ hup h
    simp only [elim_loop] at h
    cases h
    exact ⟨hWF, by rwa [show n = k by omega], fun _ _ hs => hs⟩
  | succ cnt0 ih =>
    intro k aug aug2 hkn hWF hlow hup h
    simp only [elim_loop, Bind.bind, Except.bind] at h
    cases hstep : elim_step n k aug with
    | error e => rw [hstep] at h; exact absurd h (by simp)
    | ok mid =>
      rw [hstep] at h
      obtain ⟨hWF2, hlow2, hup2, hpres1⟩ :=
        elim_step_invariants n k aug mid hWF (by omega) hlow hup hstep
      obtain ⟨hWF3, hup3, hpres2⟩ :=
        ih (k + 1) mid aug2 (by omega) hWF2 hlow2 hup2 h
      exact ⟨hWF3, hup3, fun xs hxs hs => hpres1 xs hxs (hpres2 xs hxs hs)⟩

theorem getD_mem {α : Type} (d : α) :
    ∀ (l : List α) (i : ℕ), i < l.length → l.getD i d ∈ l := by
  intro l
  induction l with
  | nil => intro i h; exact absurd h (by simp)
  | cons hd tl ih =>
    intro i h
    cases i with
    | zero => exact List.mem_cons_self _ _
    | succ m => exact List.mem_cons_of_mem _ (ih m (by simpa using h))

theorem build_aug_spec (res : List ℚ) :
    ∀ (jac : List (List ℚ)) (i : ℕ),
      i + jac.length = res.length →
      ∃ aug, build_aug res i jac = Except.ok aug ∧
        aug.length = jac.length ∧
        ∀ m, m < jac.length →
          aug.getD m [] = (jac.getD m []) ++ [-(res.getD (i + m) 0)] := by
  intro jac
  induction jac with
  | nil =>
    intro i _
    exact ⟨[], rfl, rfl, fun m hm => absurd hm (by simp)⟩
  | cons row rest ih =>
    intro i hlen
    have hi : i < res.length := by simp at hlen; omega
    have hidx : idx res i = Except.ok (res.getD i 0) := idx_eq_ok 0 res i hi
    obtain ⟨tail, htail, hlen2, hent⟩ := ih (i + 1) (by simp at hlen ⊢; omega)
    refine ⟨(row ++ [-(res.getD i 0)]) :: tail, ?_, by simp [hlen2], ?_⟩
    · simp only [build_aug, hidx, htail, Bind.bind, Except.bind]
    · intro m hm
      cases m with
      | zero =>
        have l1 : ((row ++ [-(res.getD i 0)]) :: tail).getD 0 [] = row ++ [-(res.getD i 0)] := rfl
        have l2 : (row :: rest).getD 0 [] = row := rfl
        rw [l1, l2, Nat.add_zero]
      | succ m0 =>
        have l1 : ((row ++ [-(res.getD i 0)]) :: tail).getD (m0 + 1) [] = tail.getD m0 [] := rfl
        have l2 : (row :: rest).getD (m0 + 1) [] = rest.getD m0 [] := rfl
        rw [l1, l2, hent m0 (by simpa using hm), show i + 1 + m0 = i + (m0 + 1) by omega]

theorem back_sub_spec (n : ℕ) (aug : List (List ℚ)) (hWF : WF n aug)
    (hup : upper_done n aug) :
    ∀ (cnt i : ℕ), i + cnt = n →
      ∃ d, back_sub aug n i cnt = Except.ok d ∧ d.length = cnt ∧
        ∀ m, i ≤ m → m < n →
          dot_from (aug.getD m []) m (d.drop (m - i)) = (aug.getD m []).getD n 0 := by
  intro cnt
  induction cnt with
  | zero =>
    intro i hi
    exact ⟨[], rfl, rfl, fun m h1 h2 => absurd h2 (by omega)⟩
  | succ cnt0 ih =>
    intro i hi
    obtain ⟨tail, htail, htlen, hprop⟩ := ih (i + 1) (by omega)
    have hian : i < n := by omega
    have hrowi : idx aug i = Except.ok (aug.getD i []) :=
      idx_eq_ok [] aug i (by rw [hWF.1]; omega)
    have hrhs : idx (aug.getD i []) n = Except.ok ((aug.getD i []).getD n 0) :=
      idx_eq_ok 0 _ n (by rw [hWF.2 i hian]; omega)
    refine ⟨((aug.getD i []).getD n 0 - dot_from (aug.getD i []) (i + 1) tail) :: tail,
      ?_, by simp [htlen], ?_⟩
    · simp only [back_sub, htail, hrowi, hrhs, Bind.bind, Except.bind]
    · intro m h1 h2
      by_cases hmi : m = i
      · subst hmi
        rw [Nat.sub_self, List.drop_zero]
        simp only [dot_from]
        rw [(hup m h2).1]
        ring
      · rw [show m - i = (m - (i + 1)) + 1 by omega, List.drop_succ_cons]
        exact hprop m (by omega) h2

/-- C1 (amended): the dense linear solver used inside Newton-Raphson
performs Gaussian elimination WITHOUT pivoting (no row swap; the pivot is
always the current diagonal entry) on the system `J · delta = -res`, and
raises the singular-matrix `ZeroDivisionError` exactly when a diagonal
pivot is zero at its turn — which can happen even for nonsingular matrices
(see the counterexample).  Whenever it does return a solution, that
solution is exact: for every square matrix `jac` and vector `res`,
success implies `J · delta = -res`, row by row. -/
theorem C1_solve_linear_system_correct
    (jac : List (List ℚ)) (res : List ℚ) (delta : List ℚ)
    (hrows : jac.length = res.length)
    (hcols : ∀ row ∈ jac, row.length = res.length)
    (hok : solve_linear_system jac res = Except.ok delta) :
    delta.length = res.length ∧
    ∀ i, i < res.length →
      dot_from (jac.getD i []) 0 delta = -(res.getD i 0) := by
  obtain ⟨aug, haug, haugl, haugent⟩ := build_aug_spec res jac 0 (by omega)
  unfold solve_linear_system at hok
  rw [haug] at hok
  simp only [Bind.bind, Except.bind] at hok
  have hjrl : ∀ m, m < res.length → (jac.getD m []).length = res.length := by
    intro m hm
    exact hcols _ (getD_mem [] jac m (by omega))
  have hWFa : WF res.length aug := by
    refine ⟨by omega, ?_⟩
    intro m hm
    rw [haugent m (by omega), List.length_append, hjrl m hm]
    rfl
  cases helim : elim_loop res.length 0 res.length aug with
  | error e => rw [helim] at hok; exact absurd hok (by simp)
  | ok aug2 =>
    rw [helim] at hok
    dsimp only at hok
    obtain ⟨hWF2, hup2, hpres⟩ :=
      elim_loop_spec res.length res.length 0 aug aug2 (by omega) hWFa
        (fun i j _ _ hj => absurd hj (by omega))
        (fun i hi => absurd hi (by omega))
        helim
    obtain ⟨d, hbs, hdlen, hdprop⟩ :=
      back_sub_spec res.length aug2 hWF2 hup2 res.length 0 (by omega)
    rw [hbs] at hok
    have hdelta : delta = d := ((Except.ok.injEq _ _).mp hok).symm
    subst hdelta
    refine ⟨by omega, ?_⟩
    have hsol2 : sol res.length aug2 delta := by
      intro m hm
      have hzp : dot_from (aug2.getD m []) 0 delta
          = dot_from (aug2.getD m []) m (delta.drop m) := by
        have := dot_from_zero_prefix (aug2.getD m []) m delta 0
          (fun p hp => by
            rw [Nat.zero_add]
            exact (hup2 m hm).2 p hp)
        simpa using this
      rw [hzp]
      have := hdprop m (by omega) hm
      simpa using this
    have hsola : sol res.length aug delta := hpres delta (by omega) hsol2
    intro i hi
    have := hsola i hi
    rw [haugent i (by omega)] at this
    rw [Nat.zero_add] at this
    have hjl : (jac.getD i []).length = res.length := hjrl i hi
    rw [List.getD_append_right _ _ _ _ (by omega)] at this
    rw [dot_from_append _ _ delta 0 (by omega)] at this
    rw [show res.length - (jac.getD i []).length = 0 by omega] at this
    simpa using this

/-- C1 counterexample: the claim as frozen says the solver row-swaps to the
largest-magnitude pivot and succeeds on every nonsingular matrix.  On the
nonsingular permutation matrix `[[0, 1], [1, 0]]` (one row swap away from
the identity) with `res = [1, 2]` the solver instead raises the zero-pivot
`ZeroDivisionError`, although `delta = [-2, -1]` solves `J · delta = -res`
exactly. -/
theorem C1_no_pivoting_counterexample :
    solve_linear_system [[0, 1], [1, 0]] [1, 2]
      = Except.error
          "ZeroDivisionError: Pivot cero en eliminacion gaussiana (Jacobiana singular)." ∧
    dot_from [(0 : ℚ), 1] 0 [-2, -1] = -(1 : ℚ) ∧
    dot_from [(1 : ℚ), 0] 0 [-2, -1] = -(2 : ℚ) := by
  with_unfolding_all decide

/-- C1 witness: the amended theorem applied to the concrete system
`[[2, 1], [1, 3]] · delta = -[5, 10]`, solved by the algorithm as
`delta = [-1, -3]`. -/
theorem C1_solve_linear_witness :
    solve_linear_system [[2, 1], [1, 3]] [5, 10] = Except.ok [-1, -3] ∧
    dot_from [(2 : ℚ), 1] 0 [-1, -3] = -(5 : ℚ) ∧
    dot_from [(1 : ℚ), 3] 0 [-1, -3] = -(10 : ℚ) := by
  have hok : solve_linear_system [[(2 : ℚ), 1], [1, 3]] [5, 10] = Except.ok [-1, -3] := by
    with_unfolding_all decide
  have h := C1_solve_linear_system_correct [[2, 1], [1, 3]] [5, 10] [-1, -3] rfl
    (by decide) hok
  refine ⟨hok, ?_, ?_⟩
  · have := h.2 0 (by norm_num)
    simpa using this
  · have := h.2 1 (by norm_num)
    simpa using this

/-! ### `vscsim/solver/nr.py` — `newton_raphson` -/

/-- `_vector_norm(values, kind)`: L2 norm when `kind == "l2"` (its
`s ** 0.5` is the `sqrtFn` parameter), max-norm otherwise; `0.0` on an
empty mapping. -/
def vector_norm (sqrtFn : ℚ → ℚ) (values : SMap) (kind : String) : ℚ :=
  if values = [] then 0
  else if kind = "l2" then
    sqrtFn (values.foldl (fun s kv => s + kv.2 * kv.2) 0)
  else
    values.foldl (fun m kv => if |kv.2| > m then |kv.2| else m) 0

/-- Python `int()` on an exact rational: truncation toward zero. -/
def pyint (q : ℚ) : ℤ :=
  q.num.tdiv q.den

/-- Residual callback `g(x, y, params, inputs)` of the NR engine. -/
abbrev ResidualFn := SMap → SMap → Option SMap → Option SMap → Except String SMap

/-- Jacobian callback `dg/dy(x, y, params, inputs)` of the NR engine. -/
abbrev JacobianFn := SMap → SMap → Option SMap → Option SMap →
  Except String (List (List ℚ))

/-- Overwrite the value stored under an existing key (Python dict item
assignment for a present key; insertion order is preserved). -/
def smap_update (y : SMap) (key : String) (v : ℚ) : SMap :=
  y.map (fun kv => if kv.1 = key then (kv.1, v) else kv)

/-- `[float(g_val[k]) for k in keys]`: `KeyError` when the residual
mapping lacks one of `y`'s keys. -/
def collect_res (g : SMap) : List String → Except String (List ℚ)
  | [] => Except.ok []
  | k :: rest => do
    let v ← getKey g k
    let tail ← collect_res g rest
    Except.ok (v :: tail)

/-- The NR update `y[key] += delta_vec[k]` over `enumerate(keys)`;
`IndexError` if `delta` is shorter than `keys`. -/
def apply_delta (delta : List ℚ) : SMap → List String → ℕ → Except String SMap
  | y, [], _ => Except.ok y
  | y, key :: rest, k => do
    let dv ← idx delta k
    let old ← getKey y key
    apply_delta delta (smap_update y key (old + dv)) rest (k + 1)

/-- One full Newton update (residual, Jacobian, linear solve, increment),
the body of a non-converged NR iteration. -/
def nr_step (residual : ResidualFn) (jacobian : JacobianFn)
    (x : SMap) (params inputs : Option SMap) (ks : List String)
    (y : SMap) : Except String SMap := do
  let g_val ← residual x y params inputs
  let j_mat ← jacobian x y params inputs
  let r_vec ← collect_res g_val ks
  let delta ← solve_linear_system j_mat r_vec
  apply_delta delta y ks 0

/-- The sequence of Newton iterates starting from `y0`. -/
def nr_iterates (residual : ResidualFn) (jacobian : JacobianFn)
    (x y0 : SMap) (params inputs : Option SMap) (ks : List String) :
    ℕ → Except String SMap
  | 0 => Except.ok y0
  | k + 1 => do
    let y ← nr_iterates residual jacobian x y0 params inputs ks k
    nr_step residual jacobian x params inputs ks y

/-- The `for it in range(cfg.max_iter)` loop of `newton_raphson`:
`remaining` counts the iterations left, `it` is the Python loop index,
`n_iter` the last recorded iteration count (`it + 1` at each pass). -/
def nr_loop (residual : ResidualFn) (jacobian : JacobianFn) (sqrtFn : ℚ → ℚ)
    (x : SMap) (params inputs : Option SMap) (cfg_tol : ℚ) (cfg_norm : String)
    (ks : List String) :
    ℕ → ℕ → SMap → ℕ → Except String (SMap × ℕ)
  | 0, _, y, n_iter => Except.ok (y, n_iter)
  | remaining + 1, it, y, _ => do
    let g_val ← residual x y params inputs
    let res_norm := vector_norm sqrtFn g_val cfg_norm
    if res_norm ≤ cfg_tol then
      Except.ok (y, it + 1)
    else do
      let j_mat ← jacobian x y params inputs
      let r_vec ← collect_res g_val ks
      let delta ← solve_linear_system j_mat r_vec
      let y2 ← apply_delta delta y ks 0
      nr_loop residual jacobian sqrtFn x params inputs cfg_tol cfg_norm ks
        remaining (it + 1) y2 (it + 1)

/-- `newton_raphson(x, y0, residual, jacobian, params, inputs, *, tol,
max_iter, norm)`.  Configuration precedence: explicit keyword overrides
beat `nr_tol` / `nr_max_iter` embedded in `params`, which beat the
defaults `tol = 1e-8`, `max_iter = 20`, `norm = "max"`.  `nr_verbose`
only prints and is not modelled; an `nr_norm` entry of the float-valued
`params` mapping stringifies to something that is never `"l2"`, so it can
only select the max-norm branch (modelled by the placeholder name below).
Returns `(y, n_iter)`; non-convergence is not an error. -/
def newton_raphson (residual : ResidualFn) (jacobian : JacobianFn)
    (sqrtFn : ℚ → ℚ) (x y0 : SMap) (params inputs : Option SMap)
    (tol : Option ℚ) (max_iter : Option ℕ) (norm : Option String) :
    Except String (SMap × ℕ) :=
  let cfg_tol1 : ℚ := match params with
    | some p => (getv p "nr_tol").getD 1e-8
    | none => 1e-8
  let cfg_iter1 : ℕ := match params with
    | some p => match getv p "nr_max_iter" with
      | some v => (pyint v).toNat
      | none => 20
    | none => 20
  let cfg_norm1 : String := match params with
    | some p => if (getv p "nr_norm").isSome then "str-of-a-float" else "max"
    | none => "max"
  let cfg_tol := tol.getD cfg_tol1
  let cfg_iter := max_iter.getD cfg_iter1
  let cfg_norm := norm.getD cfg_norm1
  nr_loop residual jacobian sqrtFn x params inputs cfg_tol cfg_norm (keys y0)
    cfg_iter 0 y0 0

/-! ### Claim C3 -/

/-- If at every remaining iterate the residual evaluates with norm above
the tolerance and the Newton update succeeds, the NR loop runs to
exhaustion and returns the final iterate with the full iteration count. -/
theorem nr_loop_exhaust (residual : ResidualFn) (jacobian : JacobianFn)
    (sqrtFn : ℚ → ℚ) (x y0 : SMap) (params inputs : Option SMap)
    (t : ℚ) (nrm : String) (ks : List String) (mi : ℕ)
    (hres : ∀ k, k < mi → ∃ yk g,
      nr_iterates residual jacobian x y0 params inputs ks k = Except.ok yk ∧
      residual x yk params inputs = Except.ok g ∧
      t < vector_norm sqrtFn g nrm)
    (hstep : ∀ k, k < mi → ∃ yk2,
      nr_iterates residual jacobian x y0 params inputs ks (k + 1) = Except.ok yk2) :
    ∀ (r j : ℕ) (y : SMap), j + r = mi →
      nr_iterates residual jacobian x y0 params inputs ks j = Except.ok y →
      ∃ yf, nr_iterates residual jacobian x y0 params inputs ks mi = Except.ok yf ∧
        nr_loop residual jacobian sqrtFn x params inputs t nrm ks r j y j
          = Except.ok (yf, mi) := by
  intro r
  induction r with
  | zero =>
    intro j y hj hit
    refine ⟨y, by rwa [show mi = j by omega], ?_⟩
    simp only [nr_loop]
    rw [show j = mi by omega]
  | succ r0 ih =>
    intro j y hj hit
    have hjmi : j < mi := by omega
    obtain ⟨yk, g, hyk, hg, hnorm⟩ := hres j hjmi
    have hyyk : yk = y := by
      rw [hit] at hyk
      exact (Except.ok.injEq _ _).mp hyk.symm
    subst hyyk
    obtain ⟨y2, hy2⟩ := hstep j hjmi
    have hns : nr_step residual jacobian x params inputs ks yk = Except.ok y2 := by
      have : nr_iterates residual jacobian x y0 params inputs ks (j + 1)
          = Except.ok y2 := hy2
      rw [nr_iterates, hit] at this
      simpa [Bind.bind, Except.bind] using this
    unfold nr_step at hns
    rw [hg] at hns
    simp only [Bind.bind, Except.bind] at hns
    cases hjm : jacobian x yk params inputs with
    | error e => rw [hjm] at hns; exact absurd hns (by simp)
    | ok jm =>
      rw [hjm] at hns
      dsimp only at hns
      cases hrv : collect_res g ks with
      | error e => rw [hrv] at hns; exact absurd hns (by simp)
      | ok rv =>
        rw [hrv] at hns
        dsimp only at hns
        cases hsl : solve_linear_system jm rv with
        | error e => rw [hsl] at hns; exact absurd hns (by simp)
        | ok dl =>
          rw [hsl] at hns
          dsimp only at hns
          obtain ⟨yf, hfin, hloop⟩ := ih (j + 1) y2 (by omega) hy2
          refine ⟨yf, hfin, ?_⟩
          simp only [nr_loop, Bind.bind, Except.bind]
          rw [hg]
          dsimp only
          rw [if_neg (not_le.mpr hnorm), hjm]
          dsimp only
          rw [hrv]
          dsimp only
          rw [hsl]
          dsimp only
          rw [hns]
          exact hloop

/-- C3 (amended): when `newton_raphson` is called with `max_iter ≥ 1` and
the residual norm stays above `tol` at all `max_iter` iterates, AND every
Newton update along the run succeeds (residual, Jacobian, linear solve and
increment all evaluate without raising — the frozen claim omits this, but
a singular Jacobian mid-run raises `ZeroDivisionError` out of the call,
see the counterexample), the function returns normally with the last
iterate and an iteration count equal to `max_iter`; non-convergence
itself is never an error. -/
theorem C3_nr_exhaustion_returns (residual : ResidualFn) (jacobian : JacobianFn)
    (sqrtFn : ℚ → ℚ) (x y0 : SMap) (params inputs : Option SMap)
    (t : ℚ) (mi : ℕ) (nrm : String)
    (hmi : 1 ≤ mi)
    (hres : ∀ k, k < mi → ∃ yk g,
      nr_iterates residual jacobian x y0 params inputs (keys y0) k = Except.ok yk ∧
      residual x yk params inputs = Except.ok g ∧
      t < vector_norm sqrtFn g nrm)
    (hstep : ∀ k, k < mi → ∃ yk2,
      nr_iterates residual jacobian x y0 params inputs (keys y0) (k + 1) = Except.ok yk2) :
    ∃ yf, nr_iterates residual jacobian x y0 params inputs (keys y0) mi = Except.ok yf ∧
      newton_raphson residual jacobian sqrtFn x y0 params inputs
        (some t) (some mi) (some nrm) = Except.ok (yf, mi) := by
  obtain ⟨yf, hfin, hloop⟩ :=
    nr_loop_exhaust residual jacobian sqrtFn x y0 params inputs t nrm (keys y0) mi
      hres hstep mi 0 y0 (by omega) rfl
  exact ⟨yf, hfin, hloop⟩

/-- C3 counterexample: the frozen claim promises a normal return whenever
the residual norm stays above `tol` at all `max_iter` iterations.  With
`max_iter = 1`, constant residual `{a: 1}` (norm `1 > tol = 1e-8` at the
single iterate) and the singular Jacobian `[[0]]`, `newton_raphson`
instead raises the zero-pivot `ZeroDivisionError` from the linear solve of
that very iteration. -/
theorem C3_counterexample :
    newton_raphson (fun _ _ _ _ => Except.ok [("a", 1)])
        (fun _ _ _ _ => Except.ok [[0]]) (fun _ => 0)
        [] [("a", 0)] none none none (some 1) none
      = Except.error
          "ZeroDivisionError: Pivot cero en eliminacion gaussiana (Jacobiana singular)." ∧
    vector_norm (fun _ => 0) [("a", (1 : ℚ))] "max" = 1 ∧
    (1e-8 : ℚ) < 1 := by
  with_unfolding_all decide

/-- C3 witness: the amended theorem applied to the run with constant
residual `{a: 1}`, Jacobian `[[1]]`, `tol = 0`, `max_iter = 2`: the call
returns the second iterate `{a: -2}` with iteration count 2. -/
theorem C3_nr_exhaustion_witness :
    newton_raphson (fun _ _ _ _ => Except.ok [("a", 1)])
        (fun _ _ _ _ => Except.ok [[1]]) (fun _ => 0)
        [] [("a", 0)] none none (some 0) (some 2) (some "max")
      = Except.ok ([("a", -2)], 2) := by
  obtain ⟨yf, hfin, hnr⟩ :=
    C3_nr_exhaustion_returns (fun _ _ _ _ => Except.ok [("a", 1)])
      (fun _ _ _ _ => Except.ok [[1]]) (fun _ => 0)
      [] [("a", 0)] none none 0 2 "max" (by norm_num)
      (by
        intro k hk
        match k, hk with
        | 0, _ =>
          exact ⟨[("a", 0)], [("a", 1)], by with_unfolding_all decide, rfl,
            by with_unfolding_all decide⟩
        | 1, _ =>
          exact ⟨[("a", -1)], [("a", 1)], by with_unfolding_all decide, rfl,
            by with_unfolding_all decide⟩)
      (by
        intro k hk
        match k, hk with
        | 0, _ => exact ⟨[("a", -1)], by with_unfolding_all decide⟩
        | 1, _ => exact ⟨[("a", -2)], by with_unfolding_all decide⟩)
  have hfin2 : nr_iterates (fun _ _ _ _ => Except.ok [("a", 1)])
      (fun _ _ _ _ => Except.ok [[1]]) [] [("a", 0)] none none
      (keys [("a", (0 : ℚ))]) 2 = Except.ok [("a", -2)] := by
    with_unfolding_all decide
  rw [hfin2] at hfin
  have : yf = [("a", -2)] := ((Except.ok.injEq _ _).mp hfin).symm
  rw [this] at hnr
  exact hnr

/-! ### `vscsim/model/dae.py` and `vscsim/model/jacobian.py` -/

/-- `f_rhs(x, y, params, inputs)`: the dynamic right-hand side. -/
def f_rhs (x y params inputs : SMap) : Except String SMap := do
  let id0 ← getKey x "id"
  let iq0 ← getKey x "iq"
  let _Vdc ← getKey x "Vdc"
  let Idc ← getKey y "Idc"
  let L ← getKey params "L"
  let R ← getKey params "R"
  let Cdc ← getKey params "Cdc"
  let omega0 ← getKey params "omega"
  let v_conv_d ← getKey inputs "v_conv_d"
  let v_conv_q ← getKey inputs "v_conv_q"
  let v_pcc_d ← getKey inputs "v_pcc_d"
  let v_pcc_q ← getKey inputs "v_pcc_q"
  let did_dt ← pydiv (v_conv_d - R * id0 + omega0 * L * iq0 - v_pcc_d) L
  let diq_dt ← pydiv (v_conv_q - R * iq0 - omega0 * L * id0 - v_pcc_q) L
  let dVdc_dt ← pydiv Idc Cdc
  Except.ok [("id", did_dt), ("iq", diq_dt), ("Vdc", dVdc_dt)]

/-- `g_residual(x, y, params, inputs)`: the algebraic residual (the
`params` argument is accepted but unused, as in the source). -/
def g_residual (x y params inputs : SMap) : Except String SMap := do
  let _ := params
  let id0 ← getKey x "id"
  let iq0 ← getKey x "iq"
  let Vdc ← getKey x "Vdc"
  let Idc ← getKey y "Idc"
  let P_ac ← getKey y "P_ac"
  let Q_ac ← getKey y "Q_ac"
  let v_pcc_d ← getKey inputs "v_pcc_d"
  let v_pcc_q ← getKey inputs "v_pcc_q"
  let P_calc := (1.5 : ℚ) * (v_pcc_d * id0 + v_pcc_q * iq0)
  let Q_calc := (1.5 : ℚ) * (v_pcc_q * id0 - v_pcc_d * iq0)
  let Idc_calc ← pydiv P_ac Vdc
  Except.ok [("Idc", Idc - Idc_calc), ("P_ac", P_ac - P_calc), ("Q_ac", Q_ac - Q_calc)]

/-- `dg_dy(x, y, params, inputs)`: the algebraic Jacobian, rows and
columns ordered `(Idc, P_ac, Q_ac)`. -/
def dg_dy (x y params inputs : SMap) : Except String (List (List ℚ)) := do
  let _ := y
  let _ := params
  let _ := inputs
  let Vdc ← getKey x "Vdc"
  let m ← pydiv (-1) Vdc
  Except.ok [[1, m, 0], [0, 1, 0], [0, 0, 1]]

/-! ### `vscsim/solver/simulation.py` -/

/-- `_build_inputs(scenario, v_conv_d, v_conv_q)`: PCC voltages default to
`1.0` / `0.0` when absent from the scenario. -/
def build_inputs (scenario : Scenario) (v_conv_d v_conv_q : ℚ) : SMap :=
  [("v_conv_d", v_conv_d), ("v_conv_q", v_conv_q),
   ("v_pcc_d", scenario.v_pcc_d.getD 1), ("v_pcc_q", scenario.v_pcc_q.getD 0)]

/-- `_apply_scenario_limits`: the identity in ENG-1.0. -/
def apply_scenario_limits (x y : SMap) (scenario : Scenario) : SMap × SMap :=
  let _ := scenario
  (x, y)

/-- Python truthiness fallback `m_opt or dflt` on an optional dict: `None`
and the empty dict both fall back. -/
def py_or (o : Option SMap) (dflt : SMap) : SMap :=
  match o with
  | none => dflt
  | some m => if m = [] then dflt else m

/-- `run_step(t, dt, x, y, scenario, params, integrator_name)`: the fixed
seven-stage sequence — integrator selection, external control, inner
proportional control, voltage saturation, NR solve of `g(x, y) = 0` with
the `g_residual`/`dg_dy` closures, derivative evaluation and explicit
integration (legacy Euler when `integrator_name` is `None`, RK scheme
otherwise), and the identity scenario limits. -/
def run_step (sqrtFn : ℚ → ℚ) (t dt : ℚ) (x y : SMap)
    (scenario : Scenario) (params : SMap) (integrator_name : Option String) :
    Except String (SMap × SMap) := do
  let rk ← match integrator_name with
    | none => Except.ok none
    | some nm => do
      let kind ← get_integrator nm
      Except.ok (some kind)
  let refs ← compute_current_references t x y scenario params
  let id_ref := getD refs "id_ref" 0
  let iq_ref := getD refs "iq_ref" 0
  let vrefs ← compute_converter_voltage_references id_ref iq_ref x params
  let v_max := getD params "V_max" 1
  let vsat := apply_voltage_saturation sqrtFn vrefs.1 vrefs.2 v_max
  let inputs := build_inputs scenario vsat.1 vsat.2
  let residual : ResidualFn := fun x_nr y_nr params_nr inputs_nr =>
    g_residual x_nr y_nr (py_or params_nr params) (py_or inputs_nr inputs)
  let jacobian : JacobianFn := fun x_nr y_nr params_nr inputs_nr =>
    dg_dy x_nr y_nr (py_or params_nr params) (py_or inputs_nr inputs)
  let ynr ← newton_raphson residual jacobian sqrtFn x y
    (some params) (some inputs) none none none
  let y_next := ynr.1
  let x_next ← match rk with
    | none => do
      let x_dot ← f_rhs x y_next params inputs
      Except.ok (step_forward x x_dot dt)
    | some kind =>
      integrator_step kind (fun state _ctx => f_rhs state y_next params inputs) x dt []
  Except.ok (apply_scenario_limits x_next y_next scenario)

/-! ### `vscsim/solver/timestepper.py` -/

/-- `AdaptiveTimestepper` (mutable `dt` threaded as a value). -/
structure AdaptiveTimestepper where
  dt : ℚ
  dt_min : ℚ
  dt_max : ℚ
  safety : ℚ := 0.9
  growth_factor_max : ℚ := 2.0
  shrink_factor_min : ℚ := 0.5
  order : ℚ := 2.0
deriving DecidableEq

/-- `clamp_dt()`: clamps the stored `dt` to `[dt_min, dt_max]` and returns
it. -/
def ts_clamp (ts : AdaptiveTimestepper) : AdaptiveTimestepper × ℚ :=
  let d := max ts.dt_min (min ts.dt_max ts.dt)
  ({ ts with dt := d }, d)

/-- `update(error_estimate, tol)`: `ValueError` checks, growth-factor
shortcut on zero error, otherwise `safety · (clamped ratio) ** (1/order)`
(the float power is the `rpow` parameter), clamped multiplicative factor,
then `clamp_dt`.  Returns the updated stepper and the new `dt`. -/
def ts_update (rpow : ℚ → ℚ → ℚ) (ts : AdaptiveTimestepper)
    (error_estimate tol : ℚ) : Except String (AdaptiveTimestepper × ℚ) :=
  if tol ≤ 0 then Except.error "ValueError: tol must be > 0.0"
  else if error_estimate < 0 then Except.error "ValueError: error_estimate must be >= 0.0"
  else do
    let factor ←
      if error_estimate = 0 then
        Except.ok ts.growth_factor_max
      else do
        let r0 := tol / error_estimate
        let r1 := max 1e-12 (min 1e12 r0)
        let e ← pydiv 1 ts.order
        Except.ok (ts.safety * rpow r1 e)
    let factor2 := max ts.shrink_factor_min (min ts.growth_factor_max factor)
    Except.ok (ts_clamp { ts with dt := ts.dt * factor2 })

/-- `math.isclose(a, b, rel_tol, abs_tol)`. -/
def py_isclose (a b rel_tol abs_tol : ℚ) : Prop :=
  |a - b| ≤ max (rel_tol * max |a| |b|) abs_tol

instance (a b r s : ℚ) : Decidable (py_isclose a b r s) := by
  unfold py_isclose
  infer_instance

/-! ### `run_simulation_adaptive` -/

/-- The fixed arguments of the adaptive while-loop. -/
structure AdaptiveConfig where
  t_end : ℚ
  tol : ℚ
  dt_min : ℚ
  max_steps : ℕ
  scenario : Scenario
  params : SMap
  integrator_name : String

/-- The mutable state of the adaptive while-loop. -/
structure AdaptState where
  t : ℚ
  x : SMap
  y : SMap
  ts : AdaptiveTimestepper
  steps : ℕ
  times : List ℚ
  x_history : List SMap
  y_history : List SMap
  dt_history : List ℚ
deriving DecidableEq

/-- The parallel sequences returned by `run_simulation_adaptive`. -/
structure AdaptResult where
  times : List ℚ
  x_history : List SMap
  y_history : List SMap
  dt_history : List ℚ
deriving DecidableEq

/-- The local error estimate `max |x_coarse[k] - x_fine[k]|` over the keys
of `x`. -/
def errest_loop (xc xf : SMap) : List String → ℚ → Except String ℚ
  | [], acc => Except.ok acc
  | k :: rest, acc => do
    let vc ← getKey xc k
    let vf ← getKey xf k
    let e := |vc - vf|
    errest_loop xc xf rest (if e > acc then e else acc)

/-- One iteration of the adaptive while-loop: clip `dt` at `t_end`, run the
coarse step and the two fine half-steps, estimate the error, update the
timestepper, and either accept (advance and record) or reject (retry with
the new `dt`). -/
def adaptive_body (sqrtFn : ℚ → ℚ) (rpow : ℚ → ℚ → ℚ) (cfg : AdaptiveConfig)
    (st : AdaptState) : Except String AdaptState := do
  let dt0 := st.ts.dt
  let dt := if cfg.t_end < st.t + dt0 then cfg.t_end - st.t else dt0
  let coarse ← run_step sqrtFn st.t dt st.x st.y cfg.scenario cfg.params
    (some cfg.integrator_name)
  let dt_half := dt * 0.5
  let halfstep ← run_step sqrtFn st.t dt_half st.x st.y cfg.scenario cfg.params
    (some cfg.integrator_name)
  let fine ← run_step sqrtFn (st.t + dt_half) dt_half halfstep.1 halfstep.2
    cfg.scenario cfg.params (some cfg.integrator_name)
  let error_estimate ← errest_loop coarse.1 fine.1 (keys st.x) 0
  let upd ← ts_update rpow st.ts error_estimate cfg.tol
  let accept := error_estimate ≤ cfg.tol ∨ py_isclose upd.2 cfg.dt_min 0 1e-15
  if accept then
    Except.ok
      { t := st.t + dt, x := fine.1, y := fine.2, ts := upd.1,
        steps := st.steps + 1,
        times := st.times ++ [st.t + dt],
        x_history := st.x_history ++ [fine.1],
        y_history := st.y_history ++ [fine.2],
        dt_history := st.dt_history ++ [dt] }
  else
    Except.ok { st with ts := upd.1 }

/-- The adaptive while-loop with an explicit termination fuel (`none`
means the fuel ran out before the loop finished).  On exit, `steps >=
max_steps` raises the budget-exhaustion `RuntimeError` — even when the
final accepted step reached `t_end`. -/
def adaptive_loop (sqrtFn : ℚ → ℚ) (rpow : ℚ → ℚ → ℚ) (cfg : AdaptiveConfig) :
    ℕ → AdaptState → Option (Except String AdaptResult)
  | 0, _ => none
  | fuel + 1, st =>
    if st.t < cfg.t_end ∧ st.steps < cfg.max_steps then
      match adaptive_body sqrtFn rpow cfg st with
      | Except.error e => some (Except.error e)
      | Except.ok st2 => adaptive_loop sqrtFn rpow cfg fuel st2
    else
      if cfg.max_steps ≤ st.steps then
        some (Except.error
          "RuntimeError: run_simulation_adaptive: max_steps alcanzado sin llegar a t_end")
      else
        some (Except.ok ⟨st.times, st.x_history, st.y_history, st.dt_history⟩)

/-- `run_simulation_adaptive(t0, t_end, x0, y0, scenario, params,
integrator_name, dt_initial, dt_min, dt_max, tol, max_steps)`.  Note that
`dt_initial` is stored in the timestepper unclamped. -/
def run_simulation_adaptive (sqrtFn : ℚ → ℚ) (rpow : ℚ → ℚ → ℚ) (fuel : ℕ)
    (t0 t_end : ℚ) (x0 y0 : SMap) (scenario : Scenario) (params : SMap)
    (integrator_name : String) (dt_initial dt_min dt_max tol : ℚ)
    (max_steps : ℕ) : Option (Except String AdaptResult) :=
  if t_end ≤ t0 then some (Except.error "ValueError: t_end must be > t0")
  else
    adaptive_loop sqrtFn rpow
      { t_end := t_end, tol := tol, dt_min := dt_min, max_steps := max_steps,
        scenario := scenario, params := params, integrator_name := integrator_name }
      fuel
      { t := t0, x := x0, y := y0,
        ts := { dt := dt_initial, dt_min := dt_min, dt_max := dt_max,
                safety := 0.9, growth_factor_max := 2.0,
                shrink_factor_min := 0.5, order := 2.0 },
        steps := 0, times := [t0], x_history := [x0], y_history := [y0],
        dt_history := [] }

/-! ### `vscsim/api/simulation.py` — `run_simulation`

The config loaders (`load_parameters`, `load_scenario`,
`load_initial_conditions`) are outside the core per the specification
(sections 1 and 6: the core consumes already-validated mappings); the
driver below therefore takes the loaded `params`, `scenario` and initial
conditions directly and embeds the driver loop itself, which calls
`run_step` with no `integrator_name` (legacy Euler). -/

/-- `ALGEBRAIC_KEYS` from `vscsim/model/variables.py`. -/
def ALGEBRAIC_KEYS : List String := ["Idc", "P_ac", "Q_ac"]

/-- `for name in ALGEBRAIC_KEYS: if name not in y: y[name] = 0.0`. -/
def complete_y : SMap → List String → SMap
  | y, [] => y
  | y, name :: names =>
    complete_y (if (getv y name).isSome then y else y ++ [(name, 0)]) names

/-- The columnar result record of the fixed-step driver. -/
structure SimResult where
  times : List ℚ
  x_id : List ℚ
  x_iq : List ℚ
  x_Vdc : List ℚ
  y_Idc : List ℚ
  y_P_ac : List ℚ
  y_Q_ac : List ℚ
deriving DecidableEq

/-- One round of history appends (`times.append(t)` and the six series
appends; `KeyError` when a required field is missing). -/
def snapshot (x y : SMap) (t : ℚ) (r : SimResult) : Except String SimResult := do
  let vid ← getKey x "id"
  let viq ← getKey x "iq"
  let vV ← getKey x "Vdc"
  let vI ← getKey y "Idc"
  let vP ← getKey y "P_ac"
  let vQ ← getKey y "Q_ac"
  Except.ok ⟨r.times ++ [t], r.x_id ++ [vid], r.x_iq ++ [viq], r.x_Vdc ++ [vV],
    r.y_Idc ++ [vI], r.y_P_ac ++ [vP], r.y_Q_ac ++ [vQ]⟩

/-- The `for _ in range(n_steps)` loop of the fixed-step driver: one
`run_step` call and one snapshot per iteration, `t += dt` in between. -/
def sim_loop (sqrtFn : ℚ → ℚ) (scenario : Scenario) (params : SMap) (dt : ℚ) :
    ℕ → ℚ → SMap → SMap → SimResult → Except String SimResult
  | 0, _, _, _, r => Except.ok r
  | n + 1, t, x, y, r => do
    let nxt ← run_step sqrtFn t dt x y scenario params none
    let t2 := t + dt
    let r2 ← snapshot nxt.1 nxt.2 t2 r
    sim_loop sqrtFn scenario params dt n t2 nxt.1 nxt.2 r2

/-- `run_simulation(params_config, scenario_config, t_end, dt)` after
config loading: validates `dt > 0` and `t_end >= 0`, completes `y` over
`ALGEBRAIC_KEYS`, records the initial state at `t = 0`, computes
`n_steps = int(t_end / dt)` and loops `run_step` exactly `n_steps`
times. -/
def run_simulation (sqrtFn : ℚ → ℚ) (params : SMap) (scenario : Scenario)
    (x0 y0 : SMap) (t_end dt : ℚ) : Except String SimResult :=
  if dt ≤ 0 then Except.error "ValueError: Time step dt must be positive."
  else if t_end < 0 then Except.error "ValueError: t_end must be non-negative."
  else do
    let y := complete_y y0 ALGEBRAIC_KEYS
    let r0 ← snapshot x0 y 0 ⟨[], [], [], [], [], [], []⟩
    if t_end = 0 then Except.ok r0
    else
      let n_steps := (pyint (t_end / dt)).toNat
      sim_loop sqrtFn scenario params dt n_steps 0 x0 y r0

/-! ### Claims C2 and C5 -/

/-- Invariant of the adaptive while-loop: the timestepper bounds are the
configured ones, the stored `dt` is within them, time never exceeds
`t_end`, the recorded times track `t` and the step count, and every
recorded step size is positive, at most `dt_max`, and at least `dt_min`
unless its step was clipped to land exactly on `t_end`. -/
structure LoopInv (cfg : AdaptiveConfig) (dtmax : ℚ) (st : AdaptState) : Prop where
  ts_min : st.ts.dt_min = cfg.dt_min
  ts_max : st.ts.dt_max = dtmax
  dt_lo : cfg.dt_min ≤ st.ts.dt
  dt_hi : st.ts.dt ≤ dtmax
  t_le : st.t ≤ cfg.t_end
  times_last : st.times.getLast? = some st.t
  times_len : st.times.length = st.dt_history.length + 1
  steps_eq : st.steps = st.dt_history.length
  hist : ∀ p, p < st.dt_history.length →
    0 < st.dt_history.getD p 0 ∧ st.dt_history.getD p 0 ≤ dtmax ∧
    (cfg.dt_min ≤ st.dt_history.getD p 0 ∨ st.times.getD (p + 1) 0 = cfg.t_end)

/-- Decomposition of a `ts_clamp` result on an updated stepper: the
bounds survive, the stored and returned `dt` agree and are clamped into
`[dt_min, dt_max]`. -/
theorem ts_clamp_pair (ts : AdaptiveTimestepper) (v : ℚ)
    (ts2 : AdaptiveTimestepper) (d : ℚ)
    (h : ts_clamp { ts with dt := v } = (ts2, d)) :
    ts2.dt_min = ts.dt_min ∧ ts2.dt_max = ts.dt_max ∧ ts2.dt = d ∧
    ts.dt_min ≤ d ∧ (ts.dt_min ≤ ts.dt_max → d ≤ ts.dt_max) := by
  unfold ts_clamp at h
  have hts2 : ts2 = { ts with dt := max ts.dt_min (min ts.dt_max v) } :=
    (congrArg Prod.fst h).symm
  have hd : d = max ts.dt_min (min ts.dt_max v) :=
    (congrArg Prod.snd h).symm
  subst hts2
  refine ⟨rfl, rfl, by rw [hd], ?_, ?_⟩
  · rw [hd]; exact le_max_left _ _
  · intro hle
    rw [hd]
    exact max_le hle (min_le_left _ _)

/-- A successful `ts_update` leaves the bounds alone, stores the returned
`dt`, and that `dt` is clamped into `[dt_min, dt_max]`. -/
theorem ts_update_spec (rpow : ℚ → ℚ → ℚ) (ts : AdaptiveTimestepper)
    (err tol : ℚ) (ts2 : AdaptiveTimestepper) (d : ℚ)
    (h : ts_update rpow ts err tol = Except.ok (ts2, d)) :
    ts2.dt_min = ts.dt_min ∧ ts2.dt_max = ts.dt_max ∧ ts2.dt = d ∧
    ts.dt_min ≤ d ∧ (ts.dt_min ≤ ts.dt_max → d ≤ ts.dt_max) := by
  unfold ts_update at h
  by_cases h1 : tol ≤ 0
  · rw [if_pos h1] at h; exact absurd h (by simp)
  · rw [if_neg h1] at h
    by_cases h2 : err < 0
    · rw [if_pos h2] at h; exact absurd h (by simp)
    · rw [if_neg h2] at h
      simp only [Bind.bind, Except.bind] at h
      by_cases he0 : err = 0
      · rw [if_pos he0] at h
        exact ts_clamp_pair ts _ ts2 d ((Except.ok.injEq _ _).mp h)
      · rw [if_neg he0] at h
        cases hpd : pydiv 1 ts.order with
        | error e => rw [hpd] at h; exact absurd h (by simp)
        | ok v =>
          rw [hpd] at h
          dsimp only at h
          exact ts_clamp_pair ts _ ts2 d ((Except.ok.injEq _ _).mp h)

/-- `adaptive_body` preserves the loop invariant while the loop condition
holds. -/
theorem adaptive_body_inv (sq : ℚ → ℚ) (rpow : ℚ → ℚ → ℚ)
    (cfg : AdaptiveConfig) (dtmax : ℚ) (st st2 : AdaptState)
    (hmin : 0 < cfg.dt_min) (hmm : cfg.dt_min ≤ dtmax)
    (ht : st.t < cfg.t_end)
    (hinv : LoopInv cfg dtmax st)
    (h : adaptive_body sq rpow cfg st = Except.ok st2) :
    LoopInv cfg dtmax st2 := by
  unfold adaptive_body at h
  simp only [Bind.bind, Except.bind] at h
  cases hc : run_step sq st.t
      (if cfg.t_end < st.t + st.ts.dt then cfg.t_end - st.t else st.ts.dt)
      st.x st.y cfg.scenario cfg.params (some cfg.integrator_name) with
  | error e => rw [hc] at h; exact absurd h (by simp)
  | ok coarse =>
    rw [hc] at h
    dsimp only at h
    cases hh : run_step sq st.t
        ((if cfg.t_end < st.t + st.ts.dt then cfg.t_end - st.t else st.ts.dt) * 0.5)
        st.x st.y cfg.scenario cfg.params (some cfg.integrator_name) with
    | error e => rw [hh] at h; exact absurd h (by simp)
    | ok halfstep =>
      rw [hh] at h
      dsimp only at h
      cases hf : run_step sq
          (st.t + (if cfg.t_end < st.t + st.ts.dt then cfg.t_end - st.t else st.ts.dt) * 0.5)
          ((if cfg.t_end < st.t + st.ts.dt then cfg.t_end - st.t else st.ts.dt) * 0.5)
          halfstep.1 halfstep.2 cfg.scenario cfg.params (some cfg.integrator_name) with
      | error e => rw [hf] at h; exact absurd h (by simp)
      | ok fine =>
        rw [hf] at h
        dsimp only at h
        cases he : errest_loop coarse.1 fine.1 (keys st.x) 0 with
        | error e => rw [he] at h; exact absurd h (by simp)
        | ok err =>
          rw [he] at h
          dsimp only at h
          cases hu : ts_update rpow st.ts err cfg.tol with
          | error e => rw [hu] at h; exact absurd h (by simp)
          | ok upd =>
            rw [hu] at h
            dsimp only at h
            obtain ⟨hm1, hm2, hm3, hm4, hm5⟩ :=
              ts_update_spec rpow st.ts err cfg.tol upd.1 upd.2 (by rw [hu])
            have hts2lo : cfg.dt_min ≤ upd.1.dt := by
              rw [hm3, ← hinv.ts_min]; exact hm4
            have hts2hi : upd.1.dt ≤ dtmax := by
              rw [hm3, ← hinv.ts_max]
              exact hm5 (by rw [hinv.ts_min, hinv.ts_max]; exact hmm)
            have hts2min : upd.1.dt_min = cfg.dt_min := by rw [hm1, hinv.ts_min]
            have hts2max : upd.1.dt_max = dtmax := by rw [hm2, hinv.ts_max]
            -- properties of the (possibly clipped) step size
            have hdt_pos : 0 < (if cfg.t_end < st.t + st.ts.dt then cfg.t_end - st.t
                else st.ts.dt) := by
              by_cases hclip : cfg.t_end < st.t + st.ts.dt
              · rw [if_pos hclip]; linarith
              · rw [if_neg hclip]; linarith [hinv.dt_lo]
            have hdt_hi : (if cfg.t_end < st.t + st.ts.dt then cfg.t_end - st.t
                else st.ts.dt) ≤ dtmax := by
              by_cases hclip : cfg.t_end < st.t + st.ts.dt
              · rw [if_pos hclip]; linarith [hinv.dt_hi]
              · rw [if_neg hclip]; exact hinv.dt_hi
            have ht2 : st.t + (if cfg.t_end < st.t + st.ts.dt then cfg.t_end - st.t
                else st.ts.dt) ≤ cfg.t_end := by
              by_cases hclip : cfg.t_end < st.t + st.ts.dt
              · rw [if_pos hclip]; linarith
              · rw [if_neg hclip]; linarith [not_lt.mp hclip]
            have hclip_or : cfg.dt_min ≤ (if cfg.t_end < st.t + st.ts.dt
                  then cfg.t_end - st.t else st.ts.dt) ∨
                st.t + (if cfg.t_end < st.t + st.ts.dt then cfg.t_end - st.t
                  else st.ts.dt) = cfg.t_end := by
              by_cases hclip : cfg.t_end < st.t + st.ts.dt
              · right; rw [if_pos hclip]; ring
              · left; rw [if_neg hclip]; exact hinv.dt_lo
            by_cases hacc : err ≤ cfg.tol ∨ py_isclose upd.2 cfg.dt_min 0 1e-15
            · rw [if_pos hacc] at h
              have hst2 := (Except.ok.injEq _ _).mp h
              subst hst2
              refine ⟨hts2min, hts2max, hts2lo, hts2hi, ht2, ?_, ?_, ?_, ?_⟩
              · exact List.getLast?_concat _
              · simp [hinv.times_len]
              · simp [hinv.steps_eq]
              · intro p hp
                simp only [List.length_append, List.length_singleton] at hp
                by_cases hpo : p < st.dt_history.length
                · have e1 : (st.dt_history ++
                      [if cfg.t_end < st.t + st.ts.dt then cfg.t_end - st.t
                        else st.ts.dt]).getD p 0 = st.dt_history.getD p 0 :=
                    List.getD_append _ _ _ _ hpo
                  have e2 : (st.times ++ [st.t + (if cfg.t_end < st.t + st.ts.dt
                      then cfg.t_end - st.t else st.ts.dt)]).getD (p + 1) 0
                        = st.times.getD (p + 1) 0 :=
                    List.getD_append _ _ _ _ (by rw [hinv.times_len]; omega)
                  rw [e1, e2]
                  exact hinv.hist p hpo
                · have hpe : p = st.dt_history.length := by omega
                  subst hpe
                  have e1 : (st.dt_history ++
                      [if cfg.t_end < st.t + st.ts.dt then cfg.t_end - st.t
                        else st.ts.dt]).getD st.dt_history.length 0
                      = (if cfg.t_end < st.t + st.ts.dt then cfg.t_end - st.t
                        else st.ts.dt) := by
                    rw [List.getD_append_right _ _ _ _ (le_refl _), Nat.sub_self]
                    rfl
                  have e2 : (st.times ++ [st.t + (if cfg.t_end < st.t + st.ts.dt
                      then cfg.t_end - st.t else st.ts.dt)]).getD
                        (st.dt_history.length + 1) 0
                      = st.t + (if cfg.t_end < st.t + st.ts.dt then cfg.t_end - st.t
                        else st.ts.dt) := by
                    rw [List.getD_append_right _ _ _ _ (by rw [hinv.times_len]),
                      hinv.times_len, Nat.sub_self]
                    rfl
                  rw [e1, e2]
                  exact ⟨hdt_pos, hdt_hi, hclip_or⟩
            · rw [if_neg hacc] at h
              have hst2 := (Except.ok.injEq _ _).mp h
              subst hst2
              exact ⟨hts2min, hts2max, hts2lo, hts2hi, hinv.t_le, hinv.times_last,
                hinv.times_len, hinv.steps_eq, hinv.hist⟩

/-- Exit behaviour of the adaptive while-loop under the invariant: a
normal return carries the final time `t_end`, one more recorded time than
recorded step sizes, fewer accepted steps than `max_steps`, and the
per-step bounds of the invariant. -/
theorem adaptive_loop_spec (sq : ℚ → ℚ) (rpow : ℚ → ℚ → ℚ)
    (cfg : AdaptiveConfig) (dtmax : ℚ)
    (hmin : 0 < cfg.dt_min) (hmm : cfg.dt_min ≤ dtmax) :
    ∀ (fuel : ℕ) (st : AdaptState) (res : AdaptResult),
      LoopInv cfg dtmax st →
      adaptive_loop sq rpow cfg fuel st = some (Except.ok res) →
      res.times.getLast? = some cfg.t_end ∧
      res.times.length = res.dt_history.length + 1 ∧
      res.dt_history.length < cfg.max_steps ∧
      ∀ p, p < res.dt_history.length →
        0 < res.dt_history.getD p 0 ∧ res.dt_history.getD p 0 ≤ dtmax ∧
        (cfg.dt_min ≤ res.dt_history.getD p 0 ∨
          res.times.getD (p + 1) 0 = cfg.t_end) := by
  intro fuel
  induction fuel with
  | zero => intro st res _ h; exact absurd h (by simp [adaptive_loop])
  | succ fuel0 ih =>
    intro st res hinv h
    unfold adaptive_loop at h
    by_cases hcond : st.t < cfg.t_end ∧ st.steps < cfg.max_steps
    · rw [if_pos hcond] at h
      cases hb : adaptive_body sq rpow cfg st with
      | error e => rw [hb] at h; exact absurd h (by simp)
      | ok st2 =>
        rw [hb] at h
        exact ih st2 res
          (adaptive_body_inv sq rpow cfg dtmax st st2 hmin hmm hcond.1 hinv hb) h
    · rw [if_neg hcond] at h
      by_cases hms : cfg.max_steps ≤ st.steps
      · rw [if_pos hms] at h; exact absurd h (by simp)
      · rw [if_neg hms] at h
        have hres : res = ⟨st.times, st.x_history, st.y_history, st.dt_history⟩ := by
          have := (Option.some.injEq _ _).mp h
          exact ((Except.ok.injEq _ _).mp this).symm
        subst hres
        have hte : st.t = cfg.t_end := by
          have h1 : ¬ st.t < cfg.t_end := fun hlt => hcond ⟨hlt, by omega⟩
          have := hinv.t_le
          linarith [not_lt.mp h1]
        refine ⟨?_, hinv.times_len, by rw [← hinv.steps_eq]; omega, hinv.hist⟩
        rw [← hte]
        exact hinv.times_last

/-- The invariant holds at loop entry (note it needs
`dt_min ≤ dt_initial ≤ dt_max`: the source never clamps `dt_initial`). -/
theorem adaptive_init_inv (t0 t_end dt_initial dt_min dt_max tol : ℚ)
    (max_steps : ℕ) (x0 y0 : SMap) (scenario : Scenario) (params : SMap)
    (iname : String)
    (h2 : dt_min ≤ dt_initial) (h3 : dt_initial ≤ dt_max) (h0 : t0 ≤ t_end) :
    LoopInv
      { t_end := t_end, tol := tol, dt_min := dt_min, max_steps := max_steps,
        scenario := scenario, params := params, integrator_name := iname }
      dt_max
      { t := t0, x := x0, y := y0,
        ts := { dt := dt_initial, dt_min := dt_min, dt_max := dt_max,
                safety := 0.9, growth_factor_max := 2.0,
                shrink_factor_min := 0.5, order := 2.0 },
        steps := 0, times := [t0], x_history := [x0], y_history := [y0],
        dt_history := [] } :=
  ⟨rfl, rfl, h2, h3, h0, rfl, rfl, rfl, fun p hp => absurd hp (by simp)⟩

/-- C2 (amended): in every completed run of `run_simulation_adaptive` that
returns normally (started with `dt_min ≤ dt_initial ≤ dt_max`, since
`dt_initial` is never clamped), every accepted step size recorded in
`dt_history` is positive and at most `dt_max`, and is at least `dt_min`
UNLESS it belongs to a step whose clipped size landed the recorded time
exactly on `t_end` — the final clipped step may be arbitrarily smaller
than `dt_min` (see the counterexample).  The final recorded time equals
`t_end` exactly (hence within the quoted `1e-8`). -/
theorem C2_adaptive_dt_bounds (sq : ℚ → ℚ) (rpow : ℚ → ℚ → ℚ) (fuel : ℕ)
    (t0 t_end : ℚ) (x0 y0 : SMap) (scenario : Scenario) (params : SMap)
    (iname : String) (dt_initial dt_min dt_max tol : ℚ) (max_steps : ℕ)
    (res : AdaptResult)
    (h1 : 0 < dt_min) (h2 : dt_min ≤ dt_initial) (h3 : dt_initial ≤ dt_max)
    (hok : run_simulation_adaptive sq rpow fuel t0 t_end x0 y0 scenario params
      iname dt_initial dt_min dt_max tol max_steps = some (Except.ok res)) :
    res.times.getLast? = some t_end ∧
    res.times.length = res.dt_history.length + 1 ∧
    ∀ p, p < res.dt_history.length →
      0 < res.dt_history.getD p 0 ∧ res.dt_history.getD p 0 ≤ dt_max ∧
      (dt_min ≤ res.dt_history.getD p 0 ∨ res.times.getD (p + 1) 0 = t_end) := by
  unfold run_simulation_adaptive at hok
  by_cases hle : t_end ≤ t0
  · rw [if_pos hle] at hok; exact absurd hok (by simp)
  · rw [if_neg hle] at hok
    obtain ⟨ha, hb, _, hd⟩ :=
      adaptive_loop_spec sq rpow _ dt_max h1 (le_trans h2 h3) fuel _ res
        (adaptive_init_inv t0 t_end dt_initial dt_min dt_max tol max_steps
          x0 y0 scenario params iname h2 h3 (le_of_lt (not_le.mp hle)))
        hok
    exact ⟨ha, hb, hd⟩

/-- C5 (amended): a run of `run_simulation_adaptive` that returns normally
has reached `t_end` exactly and has taken strictly fewer than `max_steps`
accepted steps; when the accepted-step count reaches `max_steps` at loop
exit the budget `RuntimeError` is raised — even if the final accepted step
brought `t` to `t_end` (see the counterexample, which the frozen claim's
"exactly when ... before t reaches t_end" contradicts). -/
theorem C5_adaptive_budget (sq : ℚ → ℚ) (rpow : ℚ → ℚ → ℚ) (fuel : ℕ)
    (t0 t_end : ℚ) (x0 y0 : SMap) (scenario : Scenario) (params : SMap)
    (iname : String) (dt_initial dt_min dt_max tol : ℚ) (max_steps : ℕ)
    (res : AdaptResult)
    (h1 : 0 < dt_min) (h2 : dt_min ≤ dt_initial) (h3 : dt_initial ≤ dt_max)
    (hok : run_simulation_adaptive sq rpow fuel t0 t_end x0 y0 scenario params
      iname dt_initial dt_min dt_max tol max_steps = some (Except.ok res)) :
    res.times.getLast? = some t_end ∧
    res.dt_history.length < max_steps := by
  unfold run_simulation_adaptive at hok
  by_cases hle : t_end ≤ t0
  · rw [if_pos hle] at hok; exact absurd hok (by simp)
  · rw [if_neg hle] at hok
    obtain ⟨ha, _, hc, _⟩ :=
      adaptive_loop_spec sq rpow _ dt_max h1 (le_trans h2 h3) fuel _ res
        (adaptive_init_inv t0 t_end dt_initial dt_min dt_max tol max_steps
          x0 y0 scenario params iname h2 h3 (le_of_lt (not_le.mp hle)))
        hok
    exact ⟨ha, hc⟩

/-- The quiescent demonstration operating point: zero PCC voltage, zero
references, zero gains, zero resistance — every `run_step` leaves the
state unchanged and the step-doubling error estimate is exactly zero. -/
def demo_x0 : SMap := [("id", 0), ("iq", 0), ("Vdc", 1)]

/-- Quiescent algebraic initial state. -/
def demo_y0 : SMap := [("Idc", 0), ("P_ac", 0), ("Q_ac", 0)]

/-- Quiescent PQ scenario (zero references and PCC voltages). -/
def demo_scenario : Scenario :=
  { control_mode := some "PQ", P_ref := some 0, Q_ref := some 0,
    v_pcc_d := some 0, v_pcc_q := some 0 }

/-- Parameters of the quiescent operating point. -/
def demo_params : SMap :=
  [("L", 1), ("R", 0), ("Cdc", 1), ("omega", 0), ("V_max", 1),
   ("Kp_id", 0), ("Kp_iq", 0)]

/-- The quiescent NR solve: the residual vanishes at `demo_y0`, so NR
converges in a single iteration and returns the guess unchanged. -/
theorem demo_nr :
    newton_raphson
      (fun x_nr y_nr params_nr inputs_nr =>
        g_residual x_nr y_nr (py_or params_nr demo_params)
          (py_or inputs_nr (build_inputs demo_scenario 0 0)))
      (fun x_nr y_nr params_nr inputs_nr =>
        dg_dy x_nr y_nr (py_or params_nr demo_params)
          (py_or inputs_nr (build_inputs demo_scenario 0 0)))
      (fun _ => 0) demo_x0 demo_y0 (some demo_params)
      (some (build_inputs demo_scenario 0 0)) none none none
      = Except.ok (demo_y0, 1) := by
  with_unfolding_all rfl

/-- The quiescent RK1 step: the derivative vanishes, the state is
unchanged for every step size. -/
theorem demo_rk1 (dt : ℚ) :
    integrator_step IntegratorKind.rk1
      (fun state _ctx => f_rhs state demo_y0 demo_params (build_inputs demo_scenario 0 0))
      demo_x0 dt [] = Except.ok demo_x0 := by
  have hk : f_rhs demo_x0 demo_y0 demo_params (build_inputs demo_scenario 0 0)
      = Except.ok [("id", 0), ("iq", 0), ("Vdc", 0)] := by
    with_unfolding_all rfl
  dsimp only [integrator_step, rk1_step]
  simp only [Bind.bind, Except.bind, hk]
  simp [demo_x0, rk_update, getv, Bind.bind, Except.bind]

/-- At the quiescent operating point, `run_step` is the identity on the
state pair for every `t` and every `dt`. -/
theorem demo_run_step (t dt : ℚ) :
    run_step (fun _ => 0) t dt demo_x0 demo_y0 demo_scenario demo_params
      (some "rk1") = Except.ok (demo_x0, demo_y0) := by
  have h1 : get_integrator "rk1" = Except.ok IntegratorKind.rk1 := by
    with_unfolding_all rfl
  have h2 : compute_current_references t demo_x0 demo_y0 demo_scenario demo_params
      = Except.ok [("id_ref", 0), ("iq_ref", 0)] := by
    with_unfolding_all rfl
  have h3 : compute_converter_voltage_references
      (getD [("id_ref", 0), ("iq_ref", 0)] "id_ref" 0)
      (getD [("id_ref", 0), ("iq_ref", 0)] "iq_ref" 0) demo_x0 demo_params
      = Except.ok (0, 0) := by
    with_unfolding_all rfl
  have h4 : apply_voltage_saturation (fun _ => 0) (0 : ℚ) 0
      (getD demo_params "V_max" 1) = (0, 0) := by
    with_unfolding_all rfl
  unfold run_step
  simp only [Bind.bind, Except.bind]
  rw [h1]
  dsimp only
  rw [h2]
  dsimp only
  rw [h3]
  dsimp only
  rw [h4]
  dsimp only
  rw [demo_nr]
  dsimp only
  rw [demo_rk1 dt]
  dsimp only
  rfl

/-- Configuration of the clipped-final-step demonstration run. -/
def demo_cfg : AdaptiveConfig :=
  { t_end := 1001/1000000, tol := 1/10000, dt_min := 1/100000,
    max_steps := 100000, scenario := demo_scenario, params := demo_params,
    integrator_name := "rk1" }

/-- Demonstration run, initial loop state. -/
def demo_st0 : AdaptState :=
  { t := 0, x := demo_x0, y := demo_y0,
    ts := { dt := 1/1000, dt_min := 1/100000, dt_max := 1/10 },
    steps := 0, times := [0], x_history := [demo_x0], y_history := [demo_y0],
    dt_history := [] }

/-- Demonstration run, state after the first (full-size) accepted step. -/
def demo_st1 : AdaptState :=
  { t := 1/1000, x := demo_x0, y := demo_y0,
    ts := { dt := 1/500, dt_min := 1/100000, dt_max := 1/10 },
    steps := 1, times := [0, 1/1000], x_history := [demo_x0, demo_x0],
    y_history := [demo_y0, demo_y0], dt_history := [1/1000] }

/-- Demonstration run, state after the second (clipped) accepted step. -/
def demo_st2 : AdaptState :=
  { t := 1001/1000000, x := demo_x0, y := demo_y0,
    ts := { dt := 1/250, dt_min := 1/100000, dt_max := 1/10 },
    steps := 2, times := [0, 1/1000, 1001/1000000],
    x_history := [demo_x0, demo_x0, demo_x0],
    y_history := [demo_y0, demo_y0, demo_y0],
    dt_history := [1/1000, 1/1000000] }

/-- Result record of the demonstration run. -/
def demo_clip_result : AdaptResult :=
  ⟨[0, 1/1000, 1001/1000000], [demo_x0, demo_x0, demo_x0],
   [demo_y0, demo_y0, demo_y0], [1/1000, 1/1000000]⟩

/-- First body iteration of the demonstration run: a full-size accepted
step (`error = 0`, `dt` doubles). -/
theorem demo_body1 : adaptive_body (fun _ => 0) (fun _ _ => 0) demo_cfg demo_st0
    = Except.ok demo_st1 := by
  unfold adaptive_body
  simp only [Bind.bind, Except.bind]
  rw [if_neg (show ¬(demo_cfg.t_end < demo_st0.t + demo_st0.ts.dt) by
    with_unfolding_all decide)]
  dsimp only [demo_cfg, demo_st0]
  rw [demo_run_step, demo_run_step]
  dsimp only
  rw [demo_run_step]
  dsimp only
  rw [show errest_loop demo_x0 demo_x0 (keys demo_x0) 0 = Except.ok 0 from by
    with_unfolding_all rfl]
  dsimp only
  rw [show ts_update (fun _ _ => 0)
      { dt := 1/1000, dt_min := 1/100000, dt_max := 1/10 } 0 (1/10000)
      = Except.ok ({ dt := 1/500, dt_min := 1/100000, dt_max := 1/10 }, 1/500) from by
    with_unfolding_all rfl]
  dsimp only
  rw [if_pos (Or.inl (show (0 : ℚ) ≤ 1/10000 by norm_num))]
  norm_num [demo_st1, demo_x0, demo_y0]

/-- Second body iteration of the demonstration run: the step is clipped to
`t_end - t = 1e-6`, far below `dt_min = 1e-5`, and accepted. -/
theorem demo_body2 : adaptive_body (fun _ => 0) (fun _ _ => 0) demo_cfg demo_st1
    = Except.ok demo_st2 := by
  unfold adaptive_body
  simp only [Bind.bind, Except.bind]
  rw [if_pos (show demo_cfg.t_end < demo_st1.t + demo_st1.ts.dt by
    with_unfolding_all decide)]
  dsimp only [demo_cfg, demo_st1]
  rw [demo_run_step, demo_run_step]
  dsimp only
  rw [demo_run_step]
  dsimp only
  rw [show errest_loop demo_x0 demo_x0 (keys demo_x0) 0 = Except.ok 0 from by
    with_unfolding_all rfl]
  dsimp only
  rw [show ts_update (fun _ _ => 0)
      { dt := 1/500, dt_min := 1/100000, dt_max := 1/10 } 0 (1/10000)
      = Except.ok ({ dt := 1/250, dt_min := 1/100000, dt_max := 1/10 }, 1/250) from by
    with_unfolding_all rfl]
  dsimp only
  rw [if_pos (Or.inl (show (0 : ℚ) ≤ 1/10000 by norm_num))]
  norm_num [demo_st2, demo_x0, demo_y0]

/-- One unfolding of the adaptive while-loop at positive fuel. -/
theorem adaptive_loop_succ (sq : ℚ → ℚ) (rpow : ℚ → ℚ → ℚ)
    (cfg : AdaptiveConfig) (fuel : ℕ) (st : AdaptState) :
    adaptive_loop sq rpow cfg (fuel + 1) st =
      if st.t < cfg.t_end ∧ st.steps < cfg.max_steps then
        match adaptive_body sq rpow cfg st with
        | Except.error e => some (Except.error e)
        | Except.ok st2 => adaptive_loop sq rpow cfg fuel st2
      else
        if cfg.max_steps ≤ st.steps then
          some (Except.error
            "RuntimeError: run_simulation_adaptive: max_steps alcanzado sin llegar a t_end")
        else
          some (Except.ok ⟨st.times, st.x_history, st.y_history, st.dt_history⟩) := by
  rfl

/-- The complete clipped demonstration run. -/
theorem demo_clip_run :
    run_simulation_adaptive (fun _ => 0) (fun _ _ => 0) 10 0 (1001/1000000)
        demo_x0 demo_y0 demo_scenario demo_params
        "rk1" (1/1000) (1/100000) (1/10) (1/10000) 100000
      = some (Except.ok demo_clip_result) := by
  unfold run_simulation_adaptive
  rw [if_neg (show ¬((1001/1000000 : ℚ) ≤ 0) by norm_num)]
  show adaptive_loop (fun _ => 0) (fun _ _ => 0) demo_cfg (9 + 1) demo_st0
    = some (Except.ok demo_clip_result)
  rw [adaptive_loop_succ]
  rw [if_pos (show demo_st0.t < demo_cfg.t_end ∧ demo_st0.steps < demo_cfg.max_steps
    by with_unfolding_all decide)]
  rw [demo_body1]
  show adaptive_loop (fun _ => 0) (fun _ _ => 0) demo_cfg (8 + 1) demo_st1
    = some (Except.ok demo_clip_result)
  rw [adaptive_loop_succ]
  rw [if_pos (show demo_st1.t < demo_cfg.t_end ∧ demo_st1.steps < demo_cfg.max_steps
    by with_unfolding_all decide)]
  rw [demo_body2]
  show adaptive_loop (fun _ => 0) (fun _ _ => 0) demo_cfg (7 + 1) demo_st2
    = some (Except.ok demo_clip_result)
  rw [adaptive_loop_succ]
  rw [if_neg (show ¬(demo_st2.t < demo_cfg.t_end ∧ demo_st2.steps < demo_cfg.max_steps)
    by with_unfolding_all decide)]
  rw [if_neg (show ¬(demo_cfg.max_steps ≤ demo_st2.steps) by with_unfolding_all decide)]
  norm_num [demo_st2, demo_clip_result]

/-- C2 counterexample: the claim as frozen says every accepted `dt` lies
within `[dt_min, dt_max]` (tolerance `1e-12`).  In this quiescent run with
`dt_min = 1e-5` and `t_end = 1e-3 + 1e-6`, the second (final) step is
clipped to `t_end - t = 1e-6 < dt_min - 1e-12` and recorded in
`dt_history`, while the run returns normally with final time `t_end`. -/
theorem C2_counterexample :
    run_simulation_adaptive (fun _ => 0) (fun _ _ => 0) 10 0 (1001/1000000)
        demo_x0 demo_y0 demo_scenario demo_params
        "rk1" (1/1000) (1/100000) (1/10) (1/10000) 100000
      = some (Except.ok demo_clip_result) ∧
    demo_clip_result.dt_history.getD 1 0 = 1/1000000 ∧
    (1/1000000 : ℚ) < 1/100000 - 1/1000000000000 := by
  exact ⟨demo_clip_run, by norm_num [demo_clip_result], by norm_num⟩

/-- C5 counterexample: with `max_steps = 1` the quiescent run whose single
accepted step lands exactly on `t_end = 1e-3` raises the budget
`RuntimeError`, although `t` did reach `t_end`; the identical run with
`max_steps = 2` performs the same single step and returns normally with
final time `t_end`. -/
theorem C5_counterexample :
    run_simulation_adaptive (fun _ => 0) (fun _ _ => 0) 10 0 (1/1000)
        demo_x0 demo_y0 demo_scenario demo_params
        "rk1" (1/1000) (1/100000) (1/10) (1/10000) 1
      = some (Except.error
          "RuntimeError: run_simulation_adaptive: max_steps alcanzado sin llegar a t_end") ∧
    run_simulation_adaptive (fun _ => 0) (fun _ _ => 0) 10 0 (1/1000)
        demo_x0 demo_y0 demo_scenario demo_params
        "rk1" (1/1000) (1/100000) (1/10) (1/10000) 2
      = some (Except.ok
          ⟨[0, 1/1000], [demo_x0, demo_x0], [demo_y0, demo_y0], [1/1000]⟩) := by
  with_unfolding_all decide

/-- C2 witness: the amended theorem applied to the quiescent clipped
run. -/
theorem C2_adaptive_dt_witness :
    ((0 : ℚ) < 1/100000) ∧
    demo_clip_result.times.getLast? = some (1001/1000000) ∧
    demo_clip_result.times.length = demo_clip_result.dt_history.length + 1 := by
  refine ⟨by norm_num, ?_, ?_⟩
  · exact (C2_adaptive_dt_bounds (fun _ => 0) (fun _ _ => 0) 10 0 (1001/1000000)
      demo_x0 demo_y0 demo_scenario demo_params "rk1" (1/1000) (1/100000) (1/10)
      (1/10000) 100000 demo_clip_result (by norm_num) (by norm_num) (by norm_num)
      demo_clip_run).1
  · exact (C2_adaptive_dt_bounds (fun _ => 0) (fun _ _ => 0) 10 0 (1001/1000000)
      demo_x0 demo_y0 demo_scenario demo_params "rk1" (1/1000) (1/100000) (1/10)
      (1/10000) 100000 demo_clip_result (by norm_num) (by norm_num) (by norm_num)
      demo_clip_run).2.1

/-- C5 witness: the amended theorem applied to the quiescent two-step
budget run. -/
theorem C5_adaptive_budget_witness :
    ((0 : ℚ) < 1/100000) ∧
    (⟨[0, 1/1000], [demo_x0, demo_x0], [demo_y0, demo_y0], [1/1000]⟩ :
      AdaptResult).times.getLast? = some (1/1000) ∧
    (⟨[0, 1/1000], [demo_x0, demo_x0], [demo_y0, demo_y0], [1/1000]⟩ :
      AdaptResult).dt_history.length < 2 := by
  refine ⟨by norm_num, ?_, ?_⟩
  · exact (C5_adaptive_budget (fun _ => 0) (fun _ _ => 0) 10 0 (1/1000)
      demo_x0 demo_y0 demo_scenario demo_params "rk1" (1/1000) (1/100000) (1/10)
      (1/10000) 2 _ (by norm_num) (by norm_num) (by norm_num)
      (by with_unfolding_all decide)).1
  · exact (C5_adaptive_budget (fun _ => 0) (fun _ _ => 0) 10 0 (1/1000)
      demo_x0 demo_y0 demo_scenario demo_params "rk1" (1/1000) (1/100000) (1/10)
      (1/10000) 2 _ (by norm_num) (by norm_num) (by norm_num)
      (by with_unfolding_all decide)).2

/-! ### Claim C6 -/

/-- For a nonnegative rational, Python `int(q)` (truncation toward zero)
agrees with the floor. -/
theorem pyint_floor (q : ℚ) (hq : 0 ≤ q) : pyint q = ⌊q⌋ := by
  unfold pyint
  rw [Rat.floor_def]
  exact Int.div_eq_ediv (Rat.num_nonneg.mpr hq) (Int.natCast_nonneg q.den)

/-- A successful `snapshot` appends one entry per column: the new time is
`t` and every history column grows by one. -/
theorem snapshot_spec (x y : SMap) (t : ℚ) (r0 r2 : SimResult)
    (h : snapshot x y t r0 = Except.ok r2) :
    r2.times = r0.times ++ [t] ∧ r2.x_id.length = r0.x_id.length + 1 := by
  unfold snapshot at h
  simp only [Bind.bind, Except.bind] at h
  cases h1 : getKey x "id" with
  | error e => rw [h1] at h; exact absurd h (by simp)
  | ok vid =>
  rw [h1] at h; dsimp only at h
  cases h2 : getKey x "iq" with
  | error e => rw [h2] at h; exact absurd h (by simp)
  | ok viq =>
  rw [h2] at h; dsimp only at h
  cases h3 : getKey x "Vdc" with
  | error e => rw [h3] at h; exact absurd h (by simp)
  | ok vV =>
  rw [h3] at h; dsimp only at h
  cases h4 : getKey y "Idc" with
  | error e => rw [h4] at h; exact absurd h (by simp)
  | ok vI =>
  rw [h4] at h; dsimp only at h
  cases h5 : getKey y "P_ac" with
  | error e => rw [h5] at h; exact absurd h (by simp)
  | ok vP =>
  rw [h5] at h; dsimp only at h
  cases h6 : getKey y "Q_ac" with
  | error e => rw [h6] at h; exact absurd h (by simp)
  | ok vQ =>
  rw [h6] at h; dsimp only at h
  obtain rfl : (⟨r0.times ++ [t], r0.x_id ++ [vid], r0.x_iq ++ [viq],
      r0.x_Vdc ++ [vV], r0.y_Idc ++ [vI], r0.y_P_ac ++ [vP],
      r0.y_Q_ac ++ [vQ]⟩ : SimResult) = r2 := (Except.ok.injEq _ _).mp h
  exact ⟨rfl, by simp⟩

/-- Shape of a successful fixed-step loop run: starting from a record
whose last time is `t`, running `n` iterations grows every column by `n`
and the last recorded time is `t + n·dt`. -/
theorem sim_loop_spec (sq : ℚ → ℚ) (scenario : Scenario) (params : SMap)
    (dt : ℚ) :
    ∀ (n : ℕ) (t : ℚ) (x y : SMap) (r0 r : SimResult),
      r0.times.getLast? = some t →
      sim_loop sq scenario params dt n t x y r0 = Except.ok r →
      r.times.length = r0.times.length + n ∧
      r.x_id.length = r0.x_id.length + n ∧
      r.times.getLast? = some (t + n * dt) := by
  intro n
  induction n with
  | zero =>
    intro t x y r0 r hlast h
    unfold sim_loop at h
    obtain rfl : r0 = r := (Except.ok.injEq _ _).mp h
    refine ⟨(Nat.add_zero _).symm, (Nat.add_zero _).symm, ?_⟩
    simpa using hlast
  | succ n0 ih =>
    intro t x y r0 r hlast h
    unfold sim_loop at h
    simp only [Bind.bind, Except.bind] at h
    cases hrs : run_step sq t dt x y scenario params none with
    | error e => rw [hrs] at h; exact absurd h (by simp)
    | ok nxt =>
    rw [hrs] at h; dsimp only at h
    cases hsn : snapshot nxt.1 nxt.2 (t + dt) r0 with
    | error e => rw [hsn] at h; exact absurd h (by simp)
    | ok r2 =>
    rw [hsn] at h; dsimp only at h
    obtain ⟨ht2, hx2⟩ := snapshot_spec _ _ _ _ _ hsn
    have hlast2 : r2.times.getLast? = some (t + dt) := by
      rw [ht2]; exact List.getLast?_concat _
    obtain ⟨hl, hx, hgl⟩ := ih (t + dt) nxt.1 nxt.2 r2 r hlast2 h
    have hl2 : r2.times.length = r0.times.length + 1 := by rw [ht2]; simp
    refine ⟨by omega, by omega, ?_⟩
    rw [hgl]
    congr 1
    push_cast
    ring

/-- C6: for every `dt > 0` and `t_end > 0`, a normal return of the
fixed-step driver `run_simulation` has performed exactly
`n_steps = ⌊t_end / dt⌋` loop iterations (one `run_step` call each): every
returned column has `n_steps + 1` entries, and the final recorded time is
`n_steps · dt`, which is at most (and possibly less than) `t_end`. -/
theorem C6_fixed_step_driver (sq : ℚ → ℚ) (params : SMap) (scenario : Scenario)
    (x0 y0 : SMap) (t_end dt : ℚ) (r : SimResult)
    (hdt : 0 < dt) (hte : 0 < t_end)
    (hok : run_simulation sq params scenario x0 y0 t_end dt = Except.ok r) :
    r.times.length = ⌊t_end / dt⌋.toNat + 1 ∧
    r.x_id.length = ⌊t_end / dt⌋.toNat + 1 ∧
    r.times.getLast? = some ((⌊t_end / dt⌋ : ℚ) * dt) ∧
    (⌊t_end / dt⌋ : ℚ) * dt ≤ t_end := by
  unfold run_simulation at hok
  rw [if_neg (not_le.mpr hdt), if_neg (not_lt.mpr (le_of_lt hte))] at hok
  simp only [Bind.bind, Except.bind] at hok
  cases h0 : snapshot x0 (complete_y y0 ALGEBRAIC_KEYS) 0
      ⟨[], [], [], [], [], [], []⟩ with
  | error e => rw [h0] at hok; exact absurd hok (by simp)
  | ok r0 =>
  rw [h0] at hok; dsimp only at hok
  rw [if_neg (ne_of_gt hte)] at hok
  obtain ⟨ht0, hx0⟩ := snapshot_spec _ _ _ _ _ h0
  have ht0' : r0.times = [0] := by simpa using ht0
  have hlast0 : r0.times.getLast? = some 0 := by rw [ht0']; rfl
  have hlen0 : r0.times.length = 1 := by rw [ht0']; rfl
  have hx0' : r0.x_id.length = 1 := by simpa using hx0
  obtain ⟨hl, hx, hgl⟩ := sim_loop_spec sq scenario params dt _ 0 x0 _ r0 r
    hlast0 hok
  have hqpos : (0 : ℚ) ≤ t_end / dt := le_of_lt (div_pos hte hdt)
  have hpy : pyint (t_end / dt) = ⌊t_end / dt⌋ := pyint_floor _ hqpos
  have hnn : 0 ≤ ⌊t_end / dt⌋ := Int.floor_nonneg.mpr hqpos
  have hcast : ((⌊t_end / dt⌋.toNat : ℕ) : ℚ) = ((⌊t_end / dt⌋ : ℤ) : ℚ) := by
    exact_mod_cast congrArg (fun z : ℤ => (z : ℚ)) (Int.toNat_of_nonneg hnn)
  refine ⟨by rw [hl, hlen0, hpy]; omega, by rw [hx, hx0', hpy]; omega, ?_, ?_⟩
  · rw [hgl, hpy, zero_add, hcast]
  · have hle := mul_le_mul_of_nonneg_right (Int.floor_le (t_end / dt))
      (le_of_lt hdt)
    rwa [div_mul_cancel₀ _ (ne_of_gt hdt)] at hle

/-- The concrete fixed-step demonstration run: `t_end = 1/400`,
`dt = 1/1000`, so `n_steps = ⌊2.5⌋ = 2` and the final time `2·dt = 1/500`
falls short of `t_end`. -/
def demo_fixed_result : SimResult :=
  ⟨[0, 1/1000, 1/500], [0, 0, 0], [0, 0, 0], [1, 1, 1],
   [0, 0, 0], [0, 0, 0], [0, 0, 0]⟩

/-- Evaluation of the quiescent fixed-step run. -/
theorem demo_fixed_run :
    run_simulation (fun _ => 0) demo_params demo_scenario demo_x0 demo_y0
      (1/400) (1/1000) = Except.ok demo_fixed_result := by
  with_unfolding_all decide

/-- C6 witness: the theorem applied to the quiescent fixed-step run. -/
theorem C6_fixed_step_witness :
    ((0 : ℚ) < 1/1000) ∧
    demo_fixed_result.times.length = ⌊(1/400 : ℚ) / (1/1000)⌋.toNat + 1 ∧
    demo_fixed_result.times.getLast?
      = some ((⌊(1/400 : ℚ) / (1/1000)⌋ : ℚ) * (1/1000)) := by
  refine ⟨by norm_num, ?_, ?_⟩
  · exact (C6_fixed_step_driver (fun _ => 0) demo_params demo_scenario
      demo_x0 demo_y0 (1/400) (1/1000) demo_fixed_result (by norm_num)
      (by norm_num) demo_fixed_run).1
  · exact (C6_fixed_step_driver (fun _ => 0) demo_params demo_scenario
      demo_x0 demo_y0 (1/400) (1/1000) demo_fixed_result (by norm_num)
      (by norm_num) demo_fixed_run).2.2.1

end VscSim
